import Mathlib

/-!
Verification of the SPY 0-DTE pattern/backtest core (`spy_agent`).

The development shallowly embeds the parts of the source that the
specification's claims are about:

* `patterns.py` — `Signal` (with `risk_reward`), all 26 `_detect_*` signal
  detectors (the range-break family `_detect_orb_long`, `_detect_orb_short`,
  `_detect_prev_high_break`, `_detect_prev_low_break`, `_detect_gap_fill_long`,
  `_detect_gap_fill_short`, plus the VWAP, MACD, RSI, EMA, Bollinger-squeeze,
  volume-spike, mean-reversion, time-of-day, double-bottom/top and
  support/resistance detectors), the ORB confidence score `_orb_confidence`,
  and the exception-isolating `PatternDetector.scan` loop.  In the structural
  detectors the two Indicator Library leaf calls whose outputs only gate
  emission or feed a price level — `indicators.detect_double_bottom/top` and
  `indicators.find_support_resistance` — are kept as parameters, in the same
  way as the simulator's premium quotes.
* `backtester.py` — the trade-simulation loop `Backtester._simulate_trades`
  (admission, premium threshold, position sizing, capital update, capital
  exhaustion) and the `BacktestResult` statistics (`win_rate`, `total_pnl`,
  `max_drawdown`, `sharpe_ratio`), plus the `final_capital` computation of
  `Backtester.run`.
* `options_model.py` — `black_scholes_price` over the reals, with the standard
  normal CDF realised as `1/2 + ∫ 0..x` of the Gaussian density.

Money and price arithmetic from the Python floats is embedded as exact `ℚ`
(resp. `ℝ` for the transcendental pricer).  Pandas series lookups
(`series.get(idx, default)` followed by an `isna` check) are embedded as
`Ts → Option SVal`, where `none` is a missing index and `SVal.nan` is a
present-but-NaN entry.  In the simulator the two numeric leaf calls whose
values do not influence the control-flow properties under study — the entry
premium quote (strike selection + IV heuristic + Black-Scholes) and the exit
premium search `_find_exit` — are kept as function parameters `quote`/`exitQ`
so that the loop itself is embedded exactly and remains executable.
-/

set_option linter.unusedVariables false

namespace SpyAgent

/-- Minute-resolution timestamp: calendar day ordinal plus minute of day
(`df.index` entries; `.date()` is the `day` field). -/
structure Ts where
  day : Int
  minute : Nat
deriving DecidableEq, Repr

/-- Timestamp order (dates first, minutes within a day). -/
def Ts.le (a b : Ts) : Prop :=
  a.day < b.day ∨ (a.day = b.day ∧ a.minute ≤ b.minute)

instance : DecidablePred fun p : Ts × Ts => Ts.le p.1 p.2 := fun _ => by
  unfold Ts.le; infer_instance

instance (a b : Ts) : Decidable (Ts.le a b) := by
  unfold Ts.le; infer_instance

/-- Strict timestamp order. -/
def Ts.lt (a b : Ts) : Prop :=
  a.day < b.day ∨ (a.day = b.day ∧ a.minute < b.minute)

instance (a b : Ts) : Decidable (Ts.lt a b) := by
  unfold Ts.lt; infer_instance

/-- Boolean timestamp comparison, used by the stable sort in `scan`. -/
def Ts.leb (a b : Ts) : Bool :=
  decide (Ts.le a b)

/-- `Direction` from `patterns.py` (`LONG` = buy calls, `SHORT` = buy puts). -/
inductive Direction where
  | long
  | short
deriving DecidableEq, Repr

/-- `Signal` from `patterns.py` (the free-form metadata map is omitted — no
claim refers to it). -/
structure Signal where
  ts : Ts
  pattern : String
  direction : Direction
  confidence : ℚ
  entry_price : ℚ
  stop_price : ℚ
  target_price : ℚ
deriving DecidableEq, Repr

/-- `Signal.risk_reward`: `reward / risk if risk > 0 else 0.0`. -/
def Signal.risk_reward (s : Signal) : ℚ :=
  let risk := |s.entry_price - s.stop_price|
  let reward := |s.target_price - s.entry_price|
  if 0 < risk then reward / risk else 0

/-- One pandas series entry: present-and-numeric or present-but-NaN. -/
inductive SVal where
  | nan
  | val (q : ℚ)
deriving DecidableEq, Repr

/-- A pandas series indexed by timestamps; `none` is a missing index. -/
def Series : Type := Ts → Option SVal

/-- `series.get(idx, default)`: a missing index yields the default (a numeric
value, which passes the subsequent `isna` checks). -/
def sget (f : Series) (t : Ts) (d : ℚ) : SVal :=
  (f t).getD (.val d)

/-- The ubiquitous detector idiom `a = atr.get(idx, 1.0); if isna(a): a = 1.0`. -/
def atrAt (atr : Series) (t : Ts) : ℚ :=
  match sget atr t 1 with
  | .nan => 1
  | .val q => q

/-- One OHLCV bar (a row of the intraday dataframe).  The optional previous-day
columns are `none` when NaN. -/
structure Bar where
  ts : Ts
  opn : ℚ
  high : ℚ
  low : ℚ
  close : ℚ
  volume : ℚ
  prev_high : Option ℚ := none
  prev_low : Option ℚ := none
  prev_close : Option ℚ := none
deriving DecidableEq, Repr

/-- Maximum of the `high` column of a nonempty bar list (`0` backstop unused). -/
def maxHigh : List Bar → ℚ
  | [] => 0
  | b :: bs => bs.foldl (fun m x => max m x.high) b.high

/-- Minimum of the `low` column of a nonempty bar list (`0` backstop unused). -/
def minLow : List Bar → ℚ
  | [] => 0
  | b :: bs => bs.foldl (fun m x => min m x.low) b.low

/-- `df.groupby("date")`: one group per distinct calendar day, each group the
in-order bars of that day. -/
def groupByDay (bars : List Bar) : List (Int × List Bar) :=
  ((bars.map (fun b => b.ts.day)).dedup).map
    (fun d => (d, bars.filter (fun b => b.ts.day = d)))

/-- Opening range of one day group: bars up to `first_bar_time + orb_minutes`,
returning `(max high, min low)` (`_get_opening_range`, inner loop body). -/
def orOfGroup (orbMinutes : Nat) (g : List Bar) : Option (ℚ × ℚ) :=
  match g with
  | [] => none
  | b0 :: _ =>
    let cutoff : Ts := ⟨b0.ts.day, b0.ts.minute + orbMinutes⟩
    let orBars := g.filter (fun b => Ts.le b.ts cutoff)
    match orBars with
    | [] => none
    | _ :: _ => some (maxHigh orBars, minLow orBars)

/-- `PatternDetector._get_opening_range`. -/
def getOpeningRange (orbMinutes : Nat) (bars : List Bar) : List (Int × ℚ × ℚ) :=
  (groupByDay bars).filterMap
    (fun dg => (orOfGroup orbMinutes dg.2).map (fun p => (dg.1, p.1, p.2)))

/-- Volume-confirmation bonus of `_orb_confidence`. -/
def orbVolBonus (volS volSmaS : Series) (idx : Ts) : ℚ :=
  match sget volS idx 0, sget volSmaS idx 1 with
  | .val v, .val va => if 0 < va then (if 3/2 * va < v then 3/20 else 0) else 0
  | _, _ => 0

/-- ADX trend-strength bonus of `_orb_confidence`. -/
def orbAdxBonus (adxThreshold : ℚ) (adxS : Series) (idx : Ts) : ℚ :=
  match sget adxS idx 0 with
  | .val a => if adxThreshold < a then 3/20 else 0
  | .nan => 0

/-- Tight-opening-range bonus of `_orb_confidence` (ATR defaults to the range
itself when the index is missing). -/
def orbRangeBonus (atrS : Series) (orHigh orLow : ℚ) (idx : Ts) : ℚ :=
  let orRange := orHigh - orLow
  if 0 < orRange then
    match sget atrS idx orRange with
    | .val a => if orRange < a then 1/10 else 0
    | .nan => 0
  else 0

/-- `PatternDetector._orb_confidence`: base 0.5 plus the three confirming
bonuses, capped at 1.0. -/
def orbConfidence (adxThreshold : ℚ) (volS volSmaS adxS atrS : Series)
    (orHigh orLow : ℚ) (idx : Ts) : ℚ :=
  min (1/2 + orbVolBonus volS volSmaS idx + orbAdxBonus adxThreshold adxS idx
        + orbRangeBonus atrS orHigh orLow idx) 1

/-- First two-bar upward crossing of `thr` (`prev.close <= thr < row.close`),
mirroring the `for i in range(1, len(post_or))` loop with its `break`. -/
def firstCrossAbove (thr : ℚ) : List Bar → Option Bar
  | b0 :: b1 :: rest =>
    if b0.close ≤ thr ∧ thr < b1.close then some b1
    else firstCrossAbove thr (b1 :: rest)
  | _ => none

/-- First two-bar downward crossing of `thr` (`prev.close >= thr > row.close`). -/
def firstCrossBelow (thr : ℚ) : List Bar → Option Bar
  | b0 :: b1 :: rest =>
    if thr ≤ b0.close ∧ b1.close < thr then some b1
    else firstCrossBelow thr (b1 :: rest)
  | _ => none

/-- The per-day body of `_detect_orb_long`: bars of the range's day, those
strictly after the cutoff, and the first two-bar crossing of
`or_high + buffer`, with its `break`. -/
def orbLongForRange (orbMinutes : Nat) (buffer adxThreshold : ℚ)
    (volS volSmaS adxS atrS : Series) (bars : List Bar) (dr : Int × ℚ × ℚ) :
    Option Signal :=
  let date := dr.1
  let orHigh := dr.2.1
  let orLow := dr.2.2
  let dayBars := bars.filter (fun b => b.ts.day = date)
  match dayBars with
  | [] => none
  | b0 :: _ =>
    let cutoff : Ts := ⟨b0.ts.day, b0.ts.minute + orbMinutes⟩
    let postOr := dayBars.filter (fun b => Ts.lt cutoff b.ts)
    (firstCrossAbove (orHigh + buffer) postOr).map fun b =>
      { ts := b.ts
        pattern := "opening_range_breakout"
        direction := .long
        confidence := orbConfidence adxThreshold volS volSmaS adxS atrS orHigh orLow b.ts
        entry_price := b.close
        stop_price := orHigh - 1/2 * (orHigh - orLow)
        target_price := b.close + 3/2 * (orHigh - orLow) }

/-- `PatternDetector._detect_orb_long`.  (The source also looks up the ATR at
the signal bar but never uses it for this signal's levels.) -/
def detect_orb_long (orbMinutes : Nat) (buffer adxThreshold : ℚ)
    (volS volSmaS adxS atrS : Series) (bars : List Bar) : List Signal :=
  (getOpeningRange orbMinutes bars).filterMap
    (orbLongForRange orbMinutes buffer adxThreshold volS volSmaS adxS atrS bars)

/-- The per-day body of `_detect_orb_short`. -/
def orbShortForRange (orbMinutes : Nat) (buffer adxThreshold : ℚ)
    (volS volSmaS adxS atrS : Series) (bars : List Bar) (dr : Int × ℚ × ℚ) :
    Option Signal :=
  let date := dr.1
  let orHigh := dr.2.1
  let orLow := dr.2.2
  let dayBars := bars.filter (fun b => b.ts.day = date)
  match dayBars with
  | [] => none
  | b0 :: _ =>
    let cutoff : Ts := ⟨b0.ts.day, b0.ts.minute + orbMinutes⟩
    let postOr := dayBars.filter (fun b => Ts.lt cutoff b.ts)
    (firstCrossBelow (orLow - buffer) postOr).map fun b =>
      { ts := b.ts
        pattern := "opening_range_breakdown"
        direction := .short
        confidence := orbConfidence adxThreshold volS volSmaS adxS atrS orHigh orLow b.ts
        entry_price := b.close
        stop_price := orLow + 1/2 * (orHigh - orLow)
        target_price := b.close - 3/2 * (orHigh - orLow) }

/-- `PatternDetector._detect_orb_short`. -/
def detect_orb_short (orbMinutes : Nat) (buffer adxThreshold : ℚ)
    (volS volSmaS adxS atrS : Series) (bars : List Bar) : List Signal :=
  (getOpeningRange orbMinutes bars).filterMap
    (orbShortForRange orbMinutes buffer adxThreshold volS volSmaS adxS atrS bars)

/-- Adjacent-pair scan of `_detect_prev_high_break`: every index `i ≥ 1` with a
numeric `prev_high` and `close[i-1] <= ph < close[i]` emits a signal — there is
no per-day break in the source. -/
def phbScan (atrS : Series) : List Bar → List Signal
  | b0 :: b1 :: rest =>
    (match b1.prev_high with
     | none => []
     | some ph =>
       if b0.close ≤ ph ∧ ph < b1.close then
         [{ ts := b1.ts
            pattern := "previous_day_high_break"
            direction := .long
            confidence := 13/20
            entry_price := b1.close
            stop_price := ph - atrAt atrS b1.ts * (3/10)
            target_price := b1.close + atrAt atrS b1.ts }]
       else []) ++ phbScan atrS (b1 :: rest)
  | _ => []

/-- `PatternDetector._detect_prev_high_break` (`hasCol` is the
`"prev_high" in df.columns` guard). -/
def detect_prev_high_break (hasCol : Bool) (atrS : Series) (bars : List Bar) :
    List Signal :=
  if hasCol then phbScan atrS bars else []

/-- Adjacent-pair scan of `_detect_prev_low_break`. -/
def plbScan (atrS : Series) : List Bar → List Signal
  | b0 :: b1 :: rest =>
    (match b1.prev_low with
     | none => []
     | some pl =>
       if pl ≤ b0.close ∧ b1.close < pl then
         [{ ts := b1.ts
            pattern := "previous_day_low_break"
            direction := .short
            confidence := 13/20
            entry_price := b1.close
            stop_price := pl + atrAt atrS b1.ts * (3/10)
            target_price := b1.close - atrAt atrS b1.ts }]
       else []) ++ plbScan atrS (b1 :: rest)
  | _ => []

/-- `PatternDetector._detect_prev_low_break`. -/
def detect_prev_low_break (hasCol : Bool) (atrS : Series) (bars : List Bar) :
    List Signal :=
  if hasCol then plbScan atrS bars else []

/-- The `for i in range(2, min(len(group), 12))` search of the gap-fill
detectors: called on `group.drop 1` with counter 2, it returns the first index
`i < 12` whose close rose (resp. fell) versus index `i-1`, with that bar. -/
def gapFirstRise (up : Bool) : Nat → List Bar → Option (Nat × Bar)
  | i, b0 :: b1 :: rest =>
    if i < 12 then
      if (if up then b0.close < b1.close else b1.close < b0.close) then some (i, b1)
      else gapFirstRise up (i + 1) (b1 :: rest)
    else none
  | _, _ => none

/-- The per-day body of `_detect_gap_fill_long`: at least 3 bars, a numeric
previous close, a gap down of more than $0.50, then the first rising close
within the first hour (indices 2..11), with its `break`. -/
def gapFillLongForDay (dg : Int × List Bar) : Option Signal :=
  let g := dg.2
  if g.length < 3 then none
  else
    match g with
    | [] => none
    | b0 :: _ =>
      match b0.prev_close with
      | none => none
      | some pc =>
        let gap := b0.opn - pc
        if gap < -(1/2) then
          (gapFirstRise true 2 (g.drop 1)).map fun ib =>
            { ts := ib.2.ts
              pattern := "gap_fill_long"
              direction := .long
              confidence := 3/5
              entry_price := ib.2.close
              stop_price := minLow (g.take (ib.1 + 1))
              target_price := pc }
        else none

/-- `PatternDetector._detect_gap_fill_long`.  (The source also looks up the
ATR at the signal bar but never uses it for this signal's levels.) -/
def detect_gap_fill_long (hasCol : Bool) (atrS : Series) (bars : List Bar) :
    List Signal :=
  if hasCol then (groupByDay bars).filterMap gapFillLongForDay else []

/-- The per-day body of `_detect_gap_fill_short`. -/
def gapFillShortForDay (dg : Int × List Bar) : Option Signal :=
  let g := dg.2
  if g.length < 3 then none
  else
    match g with
    | [] => none
    | b0 :: _ =>
      match b0.prev_close with
      | some pc =>
        let gap := b0.opn - pc
        if 1/2 < gap then
          (gapFirstRise false 2 (g.drop 1)).map fun ib =>
            { ts := ib.2.ts
              pattern := "gap_fill_short"
              direction := .short
              confidence := 3/5
              entry_price := ib.2.close
              stop_price := maxHigh (g.take (ib.1 + 1))
              target_price := pc }
        else none
      | none => none

/-- `PatternDetector._detect_gap_fill_short`. -/
def detect_gap_fill_short (hasCol : Bool) (atrS : Series) (bars : List Bar) :
    List Signal :=
  if hasCol then (groupByDay bars).filterMap gapFillShortForDay else []

/-- Positional access `series.iloc[i]` on an indicator series aligned with the
dataframe index, read at the bar's timestamp (an absent entry is treated as a
present NaN; on a series aligned with the frame the index is never absent). -/
def svalAt (f : Series) (t : Ts) : SVal :=
  (f t).getD .nan

/-- Float comparison `a < b` under pandas/NumPy NaN semantics: any comparison
with NaN is `False`.  (`_detect_macd_bull` compares `ml.iloc[i-1] <
ms.iloc[i-1]` without an `isna` guard on index `i - 1`.) -/
def SVal.ltb : SVal → SVal → Bool
  | .val x, .val y => decide (x < y)
  | _, _ => false

/-- Float comparison `v > q` under NaN semantics, for the unguarded
`ctx["adx"].get(idx, 0) > adx_trend_threshold` test of the MACD detectors. -/
def SVal.gtq (v : SVal) (q : ℚ) : Bool :=
  match v with
  | .val a => decide (q < a)
  | .nan => false

/-- The `rsi_val = rsi.get(idx, 50); if isna(rsi_val): rsi_val = 50` idiom of
`_detect_midday_reversal`. -/
def rsiAt (rsiS : Series) (t : Ts) : ℚ :=
  match sget rsiS t 50 with
  | .nan => 50
  | .val q => q

/-- The `adx_at = adx_vals.get(idx, 0); if isna(adx_at): adx_at = 0` idiom of
`_detect_power_hour`. -/
def adxAt (adxS : Series) (t : Ts) : ℚ :=
  match sget adxS t 0 with
  | .nan => 0
  | .val q => q

/-- `frame.iloc[-1]` of a nonempty bar list (the default is never used at the
call sites, which all guard nonemptiness first). -/
def lastD (l : List Bar) (d : Bar) : Bar :=
  l.getLastD d

/-- Generic adjacent-pair loop `for i in range(k, len(df))` whose body reads
only bars `i - 1` and `i`: called on `bars` for the `k = 1` loops and on
`bars.drop 1` for the `k = 2` loops.  Each position appends at most one
signal (`emit`), and the loop never breaks. -/
def pairScanEmit (emit : Bar → Bar → Option Signal) : List Bar → List Signal
  | b0 :: b1 :: rest =>
    (match emit b0 b1 with
     | some s => [s]
     | none => []) ++ pairScanEmit emit (b1 :: rest)
  | _ => []

/-- Loop body of `_detect_vwap_rejection_long` at the pair
(bar `i - 1`, bar `i`). -/
def vwapRejLongEmit (thresh : ℚ) (vwapS atrS : Series) (b0 b1 : Bar) :
    Option Signal :=
  match svalAt vwapS b1.ts with
  | .nan => none
  | .val v =>
    if |b0.low - v| < thresh ∧ v + thresh < b1.close then
      some { ts := b1.ts
             pattern := "vwap_rejection_long"
             direction := .long
             confidence := 13/20
             entry_price := b1.close
             stop_price := v - atrAt atrS b1.ts * (1/2)
             target_price := b1.close + atrAt atrS b1.ts }
    else none

/-- `PatternDetector._detect_vwap_rejection_long` (`vwapOpt = none` is the
`ctx["vwap"] is None` early return; the loop starts at `i = 2`). -/
def detect_vwap_rejection_long (thresh : ℚ) (vwapOpt : Option Series)
    (atrS : Series) (bars : List Bar) : List Signal :=
  match vwapOpt with
  | none => []
  | some vwapS => pairScanEmit (vwapRejLongEmit thresh vwapS atrS) (bars.drop 1)

/-- Loop body of `_detect_vwap_rejection_short`. -/
def vwapRejShortEmit (thresh : ℚ) (vwapS atrS : Series) (b0 b1 : Bar) :
    Option Signal :=
  match svalAt vwapS b1.ts with
  | .nan => none
  | .val v =>
    if |b0.high - v| < thresh ∧ b1.close < v - thresh then
      some { ts := b1.ts
             pattern := "vwap_rejection_short"
             direction := .short
             confidence := 13/20
             entry_price := b1.close
             stop_price := v + atrAt atrS b1.ts * (1/2)
             target_price := b1.close - atrAt atrS b1.ts }
    else none

/-- `PatternDetector._detect_vwap_rejection_short`. -/
def detect_vwap_rejection_short (thresh : ℚ) (vwapOpt : Option Series)
    (atrS : Series) (bars : List Bar) : List Signal :=
  match vwapOpt with
  | none => []
  | some vwapS => pairScanEmit (vwapRejShortEmit thresh vwapS atrS) (bars.drop 1)

/-- Loop body of `_detect_vwap_cross_long` (both VWAP lookups use the
`.get(idx, np.nan)` idiom and are `isna`-guarded). -/
def vwapCrossLongEmit (vwapS atrS : Series) (b0 b1 : Bar) : Option Signal :=
  match svalAt vwapS b1.ts, svalAt vwapS b0.ts with
  | .val v, .val vprev =>
    if b0.close < vprev ∧ v < b1.close then
      some { ts := b1.ts
             pattern := "vwap_crossover_long"
             direction := .long
             confidence := 11/20
             entry_price := b1.close
             stop_price := v - atrAt atrS b1.ts * (3/10)
             target_price := b1.close + atrAt atrS b1.ts * (4/5) }
    else none
  | _, _ => none

/-- `PatternDetector._detect_vwap_cross_long`. -/
def detect_vwap_cross_long (vwapOpt : Option Series) (atrS : Series)
    (bars : List Bar) : List Signal :=
  match vwapOpt with
  | none => []
  | some vwapS => pairScanEmit (vwapCrossLongEmit vwapS atrS) bars

/-- Loop body of `_detect_vwap_cross_short`. -/
def vwapCrossShortEmit (vwapS atrS : Series) (b0 b1 : Bar) : Option Signal :=
  match svalAt vwapS b1.ts, svalAt vwapS b0.ts with
  | .val v, .val vprev =>
    if vprev < b0.close ∧ b1.close < v then
      some { ts := b1.ts
             pattern := "vwap_crossover_short"
             direction := .short
             confidence := 11/20
             entry_price := b1.close
             stop_price := v + atrAt atrS b1.ts * (3/10)
             target_price := b1.close - atrAt atrS b1.ts * (4/5) }
    else none
  | _, _ => none

/-- `PatternDetector._detect_vwap_cross_short`. -/
def detect_vwap_cross_short (vwapOpt : Option Series) (atrS : Series)
    (bars : List Bar) : List Signal :=
  match vwapOpt with
  | none => []
  | some vwapS => pairScanEmit (vwapCrossShortEmit vwapS atrS) bars

/-- Loop body of `_detect_macd_bull`: only index `i` is `isna`-guarded, the
`i - 1` comparison uses NaN-as-false float semantics, and the confidence is
`0.55` plus `0.1` when the (unguarded) ADX lookup exceeds the threshold. -/
def macdBullEmit (adxThreshold : ℚ) (mlS msS adxS atrS : Series) (b0 b1 : Bar) :
    Option Signal :=
  match svalAt mlS b1.ts, svalAt msS b1.ts with
  | .val mli, .val msi =>
    if SVal.ltb (svalAt mlS b0.ts) (svalAt msS b0.ts) ∧ msi < mli then
      some { ts := b1.ts
             pattern := "macd_bullish_cross"
             direction := .long
             confidence :=
               if SVal.gtq (sget adxS b1.ts 0) adxThreshold then 11/20 + 1/10
               else 11/20
             entry_price := b1.close
             stop_price := b1.close - atrAt atrS b1.ts
             target_price := b1.close + atrAt atrS b1.ts * (3/2) }
    else none
  | _, _ => none

/-- `PatternDetector._detect_macd_bull`. -/
def detect_macd_bull (adxThreshold : ℚ) (mlS msS adxS atrS : Series)
    (bars : List Bar) : List Signal :=
  pairScanEmit (macdBullEmit adxThreshold mlS msS adxS atrS) bars

/-- Loop body of `_detect_macd_bear`. -/
def macdBearEmit (adxThreshold : ℚ) (mlS msS adxS atrS : Series) (b0 b1 : Bar) :
    Option Signal :=
  match svalAt mlS b1.ts, svalAt msS b1.ts with
  | .val mli, .val msi =>
    if SVal.ltb (svalAt msS b0.ts) (svalAt mlS b0.ts) ∧ mli < msi then
      some { ts := b1.ts
             pattern := "macd_bearish_cross"
             direction := .short
             confidence :=
               if SVal.gtq (sget adxS b1.ts 0) adxThreshold then 11/20 + 1/10
               else 11/20
             entry_price := b1.close
             stop_price := b1.close + atrAt atrS b1.ts
             target_price := b1.close - atrAt atrS b1.ts * (3/2) }
    else none
  | _, _ => none

/-- `PatternDetector._detect_macd_bear`. -/
def detect_macd_bear (adxThreshold : ℚ) (mlS msS adxS atrS : Series)
    (bars : List Bar) : List Signal :=
  pairScanEmit (macdBearEmit adxThreshold mlS msS adxS atrS) bars

/-- Loop body of `_detect_rsi_oversold` (both RSI positions are
`isna`-guarded). -/
def rsiOversoldEmit (threshold : ℚ) (rsiS atrS : Series) (b0 b1 : Bar) :
    Option Signal :=
  match svalAt rsiS b1.ts, svalAt rsiS b0.ts with
  | .val ri, .val rprev =>
    if rprev < threshold ∧ threshold < ri then
      some { ts := b1.ts
             pattern := "rsi_oversold_bounce"
             direction := .long
             confidence := 3/5
             entry_price := b1.close
             stop_price := b1.low - atrAt atrS b1.ts * (3/10)
             target_price := b1.close + atrAt atrS b1.ts }
    else none
  | _, _ => none

/-- `PatternDetector._detect_rsi_oversold`. -/
def detect_rsi_oversold (threshold : ℚ) (rsiS atrS : Series) (bars : List Bar) :
    List Signal :=
  pairScanEmit (rsiOversoldEmit threshold rsiS atrS) bars

/-- Loop body of `_detect_rsi_overbought`. -/
def rsiOverboughtEmit (threshold : ℚ) (rsiS atrS : Series) (b0 b1 : Bar) :
    Option Signal :=
  match svalAt rsiS b1.ts, svalAt rsiS b0.ts with
  | .val ri, .val rprev =>
    if threshold < rprev ∧ ri < threshold then
      some { ts := b1.ts
             pattern := "rsi_overbought_fade"
             direction := .short
             confidence := 3/5
             entry_price := b1.close
             stop_price := b1.high + atrAt atrS b1.ts * (3/10)
             target_price := b1.close - atrAt atrS b1.ts }
    else none
  | _, _ => none

/-- `PatternDetector._detect_rsi_overbought`. -/
def detect_rsi_overbought (threshold : ℚ) (rsiS atrS : Series)
    (bars : List Bar) : List Signal :=
  pairScanEmit (rsiOverboughtEmit threshold rsiS atrS) bars

/-- Loop body of `_detect_ema_bull_cross` (only index `i` is `isna`-guarded;
the stop sits below the slow EMA). -/
def emaBullEmit (efS esS atrS : Series) (b0 b1 : Bar) : Option Signal :=
  match svalAt efS b1.ts, svalAt esS b1.ts with
  | .val efi, .val esi =>
    if SVal.ltb (svalAt efS b0.ts) (svalAt esS b0.ts) ∧ esi < efi then
      some { ts := b1.ts
             pattern := "ema_bullish_cross"
             direction := .long
             confidence := 11/20
             entry_price := b1.close
             stop_price := esi - atrAt atrS b1.ts * (3/10)
             target_price := b1.close + atrAt atrS b1.ts }
    else none
  | _, _ => none

/-- `PatternDetector._detect_ema_bull_cross`. -/
def detect_ema_bull_cross (efS esS atrS : Series) (bars : List Bar) :
    List Signal :=
  pairScanEmit (emaBullEmit efS esS atrS) bars

/-- Loop body of `_detect_ema_bear_cross`. -/
def emaBearEmit (efS esS atrS : Series) (b0 b1 : Bar) : Option Signal :=
  match svalAt efS b1.ts, svalAt esS b1.ts with
  | .val efi, .val esi =>
    if SVal.ltb (svalAt esS b0.ts) (svalAt efS b0.ts) ∧ efi < esi then
      some { ts := b1.ts
             pattern := "ema_bearish_cross"
             direction := .short
             confidence := 11/20
             entry_price := b1.close
             stop_price := esi + atrAt atrS b1.ts * (3/10)
             target_price := b1.close - atrAt atrS b1.ts }
    else none
  | _, _ => none

/-- `PatternDetector._detect_ema_bear_cross`. -/
def detect_ema_bear_cross (efS esS atrS : Series) (bars : List Bar) :
    List Signal :=
  pairScanEmit (emaBearEmit efS esS atrS) bars

/-- Breakout check of `_detect_bb_squeeze` at the bar ending a squeeze:
`if not isna(upper) and price > upper` emits long, `elif not isna(lower) and
price < lower` emits short. -/
def bbSqueezeEmit (bbUpperS bbLowerS atrS : Series) (b : Bar) : List Signal :=
  let price := b.close
  let a := atrAt atrS b.ts
  let tryLower : List Signal :=
    match svalAt bbLowerS b.ts with
    | .val lower =>
      if price < lower then
        [{ ts := b.ts
           pattern := "bollinger_squeeze_breakout"
           direction := .short
           confidence := 13/20
           entry_price := price
           stop_price := price + a
           target_price := price - a * (3/2) }]
      else []
    | .nan => []
  match svalAt bbUpperS b.ts with
  | .val upper =>
    if upper < price then
      [{ ts := b.ts
         pattern := "bollinger_squeeze_breakout"
         direction := .long
         confidence := 13/20
         entry_price := price
         stop_price := price - a
         target_price := price + a * (3/2) }]
    else tryLower
  | .nan => tryLower

/-- Stateful loop of `_detect_bb_squeeze`: a NaN bandwidth is skipped with the
state unchanged, a bandwidth below the threshold arms the squeeze flag, and the
first bandwidth at or above the threshold while armed clears the flag and runs
the breakout check. -/
def bbSqueezeScan (squeezeThresh : ℚ) (bbBwS bbUpperS bbLowerS atrS : Series) :
    Bool → List Bar → List Signal
  | _, [] => []
  | inSq, b :: rest =>
    match svalAt bbBwS b.ts with
    | .nan => bbSqueezeScan squeezeThresh bbBwS bbUpperS bbLowerS atrS inSq rest
    | .val bw =>
      if bw < squeezeThresh then
        bbSqueezeScan squeezeThresh bbBwS bbUpperS bbLowerS atrS true rest
      else if inSq then
        bbSqueezeEmit bbUpperS bbLowerS atrS b
          ++ bbSqueezeScan squeezeThresh bbBwS bbUpperS bbLowerS atrS false rest
      else bbSqueezeScan squeezeThresh bbBwS bbUpperS bbLowerS atrS inSq rest

/-- `PatternDetector._detect_bb_squeeze` (loop from `i = 1`, flag initially
clear). -/
def detect_bb_squeeze (squeezeThresh : ℚ)
    (bbBwS bbUpperS bbLowerS atrS : Series) (bars : List Bar) : List Signal :=
  bbSqueezeScan squeezeThresh bbBwS bbUpperS bbLowerS atrS false (bars.drop 1)

/-- Loop body of `_detect_volume_spike` at the pair (bar `i - 1`, bar `i`):
the spike is read off bar `i - 1` (its raw volume against the SMA there), the
continuation off both candles. -/
def volumeSpikeEmit (mult : ℚ) (volSmaS atrS : Series) (b0 b1 : Bar) :
    Option Signal :=
  match svalAt volSmaS b0.ts with
  | .nan => none
  | .val va =>
    if va = 0 then none
    else if mult * va < b0.volume then
      let move := b0.close - b0.opn
      let confirm := b1.close - b1.opn
      let a := atrAt atrS b1.ts
      if 0 < move ∧ 0 < confirm then
        some { ts := b1.ts
               pattern := "volume_spike_continuation"
               direction := .long
               confidence := 3/5
               entry_price := b1.close
               stop_price := b0.low
               target_price := b1.close + a }
      else if move < 0 ∧ confirm < 0 then
        some { ts := b1.ts
               pattern := "volume_spike_continuation"
               direction := .short
               confidence := 3/5
               entry_price := b1.close
               stop_price := b0.high
               target_price := b1.close - a }
      else none
    else none

/-- `PatternDetector._detect_volume_spike` (loop from `i = 2`). -/
def detect_volume_spike (mult : ℚ) (volSmaS atrS : Series) (bars : List Bar) :
    List Signal :=
  pairScanEmit (volumeSpikeEmit mult volSmaS atrS) (bars.drop 1)

/-- Loop body of `_detect_mean_rev_long` (the target falls back from the
Bollinger midline to `close + a` when the midline is NaN). -/
def meanRevLongEmit (thresh : ℚ) (zsS bbMidS atrS : Series) (b0 b1 : Bar) :
    Option Signal :=
  match svalAt zsS b1.ts, svalAt zsS b0.ts with
  | .val zi, .val zprev =>
    if zprev < -thresh ∧ -thresh < zi then
      let a := atrAt atrS b1.ts
      some { ts := b1.ts
             pattern := "mean_reversion_long"
             direction := .long
             confidence := 3/5
             entry_price := b1.close
             stop_price := b1.close - a
             target_price :=
               match svalAt bbMidS b1.ts with
               | .val m => m
               | .nan => b1.close + a }
    else none
  | _, _ => none

/-- `PatternDetector._detect_mean_rev_long`. -/
def detect_mean_rev_long (thresh : ℚ) (zsS bbMidS atrS : Series)
    (bars : List Bar) : List Signal :=
  pairScanEmit (meanRevLongEmit thresh zsS bbMidS atrS) bars

/-- Loop body of `_detect_mean_rev_short`. -/
def meanRevShortEmit (thresh : ℚ) (zsS bbMidS atrS : Series) (b0 b1 : Bar) :
    Option Signal :=
  match svalAt zsS b1.ts, svalAt zsS b0.ts with
  | .val zi, .val zprev =>
    if thresh < zprev ∧ zi < thresh then
      let a := atrAt atrS b1.ts
      some { ts := b1.ts
             pattern := "mean_reversion_short"
             direction := .short
             confidence := 3/5
             entry_price := b1.close
             stop_price := b1.close + a
             target_price :=
               match svalAt bbMidS b1.ts with
               | .val m => m
               | .nan => b1.close - a }
    else none
  | _, _ => none

/-- `PatternDetector._detect_mean_rev_short`. -/
def detect_mean_rev_short (thresh : ℚ) (zsS bbMidS atrS : Series)
    (bars : List Bar) : List Signal :=
  pairScanEmit (meanRevShortEmit thresh zsS bbMidS atrS) bars

/-- The `for i in range(2, len(midday))` search of `_detect_midday_reversal`,
walking consecutive triples of the midday window (the day's times 11:30-12:30,
i.e. minutes 690-750) with the running index `i` for the prefix stop levels;
each branch appends one signal and breaks the day. -/
def mdScan (rsiS atrS : Series) (morningMove : ℚ) (midday : List Bar) :
    Nat → List Bar → Option Signal
  | i, c0 :: c1 :: c2 :: rest =>
    let rsiVal := rsiAt rsiS c2.ts
    let a := atrAt atrS c2.ts
    if (a * (1/2) < morningMove ∧ 65 < rsiVal) ∧
        (c2.close < c1.close ∧ c1.close < c0.close) then
      some { ts := c2.ts
             pattern := "midday_reversal"
             direction := .short
             confidence := 3/5
             entry_price := c2.close
             stop_price := maxHigh (midday.take (i + 1))
             target_price := c2.close - a * (4/5) }
    else if (morningMove < -(a * (1/2)) ∧ rsiVal < 35) ∧
        (c1.close < c2.close ∧ c0.close < c1.close) then
      some { ts := c2.ts
             pattern := "midday_reversal"
             direction := .long
             confidence := 3/5
             entry_price := c2.close
             stop_price := minLow (midday.take (i + 1))
             target_price := c2.close + a * (4/5) }
    else mdScan rsiS atrS morningMove midday (i + 1) (c1 :: c2 :: rest)
  | _, _ => none

/-- The per-day body of `_detect_midday_reversal`: at least 3 midday bars
(11:30-12:30, minutes 690-750), at least 5 morning bars (before 11:30), the
morning move from first open to last close, then the triple scan. -/
def middayForDay (rsiS atrS : Series) (dg : Int × List Bar) : Option Signal :=
  let g := dg.2
  let midday := g.filter (fun b => 690 ≤ b.ts.minute ∧ b.ts.minute ≤ 750)
  if midday.length < 3 then none
  else
    let morning := g.filter (fun b => b.ts.minute < 690)
    if morning.length < 5 then none
    else
      match morning with
      | [] => none
      | m0 :: _ =>
        mdScan rsiS atrS ((lastD morning m0).close - m0.opn) midday 2 midday

/-- `PatternDetector._detect_midday_reversal`. -/
def detect_midday_reversal (rsiS atrS : Series) (bars : List Bar) :
    List Signal :=
  (groupByDay bars).filterMap (middayForDay rsiS atrS)

/-- The per-day body of `_detect_power_hour`: at least 3 power-hour bars
(15:00-15:30, minutes 900-930), at least 10 bars before 15:00, the day move
from first open to last pre-power close, one signal at the third power-hour
bar when the trend and ADX confirm. -/
def powerHourForDay (adxS atrS : Series) (dg : Int × List Bar) :
    Option Signal :=
  let g := dg.2
  let power := g.filter (fun b => 900 ≤ b.ts.minute ∧ b.ts.minute ≤ 930)
  if power.length < 3 then none
  else
    let prePower := g.filter (fun b => b.ts.minute < 900)
    if prePower.length < 10 then none
    else
      match prePower, power with
      | p0 :: _, q0 :: _ :: q2 :: _ =>
        let dayMove := (lastD prePower p0).close - p0.opn
        let a := atrAt atrS q2.ts
        if a * (1/2) < |dayMove| ∧ 20 < adxAt adxS q2.ts then
          let firstMoves := q2.close - q0.close
          if 0 < dayMove ∧ 0 < firstMoves then
            some { ts := q2.ts
                   pattern := "power_hour_momentum"
                   direction := .long
                   confidence := 3/5
                   entry_price := q2.close
                   stop_price := minLow (power.take 3)
                   target_price := q2.close + a * (1/2) }
          else if dayMove < 0 ∧ firstMoves < 0 then
            some { ts := q2.ts
                   pattern := "power_hour_momentum"
                   direction := .short
                   confidence := 3/5
                   entry_price := q2.close
                   stop_price := maxHigh (power.take 3)
                   target_price := q2.close - a * (1/2) }
          else none
        else none
      | _, _ => none

/-- `PatternDetector._detect_power_hour`. -/
def detect_power_hour (adxS atrS : Series) (bars : List Bar) : List Signal :=
  (groupByDay bars).filterMap (powerHourForDay adxS atrS)

/-- The per-day body of `_detect_double_bottom`.  `dbl` stands for the Indicator
Library predicate `indicators.detect_double_bottom(group["low"],
lookback=len(group))`, kept as a parameter: it only gates emission and no claim
depends on its value. -/
def doubleBottomForDay (dbl : List ℚ → Bool) (atrS : Series)
    (dg : Int × List Bar) : Option Signal :=
  let g := dg.2
  if g.length < 15 then none
  else
    match g with
    | [] => none
    | b0 :: _ =>
      if dbl (g.map (fun b => b.low)) then
        let lastBar := lastD g b0
        let a := atrAt atrS lastBar.ts
        some { ts := lastBar.ts
               pattern := "double_bottom"
               direction := .long
               confidence := 13/20
               entry_price := lastBar.close
               stop_price := minLow g - a * (1/5)
               target_price := lastBar.close + (lastBar.close - minLow g) }
      else none

/-- `PatternDetector._detect_double_bottom`. -/
def detect_double_bottom (dbl : List ℚ → Bool) (atrS : Series)
    (bars : List Bar) : List Signal :=
  (groupByDay bars).filterMap (doubleBottomForDay dbl atrS)

/-- The per-day body of `_detect_double_top` (`dtp` stands for
`indicators.detect_double_top(group["high"], lookback=len(group))`). -/
def doubleTopForDay (dtp : List ℚ → Bool) (atrS : Series)
    (dg : Int × List Bar) : Option Signal :=
  let g := dg.2
  if g.length < 15 then none
  else
    match g with
    | [] => none
    | b0 :: _ =>
      if dtp (g.map (fun b => b.high)) then
        let lastBar := lastD g b0
        let a := atrAt atrS lastBar.ts
        some { ts := lastBar.ts
               pattern := "double_top"
               direction := .short
               confidence := 13/20
               entry_price := lastBar.close
               stop_price := maxHigh g + a * (1/5)
               target_price := lastBar.close - (maxHigh g - lastBar.close) }
      else none

/-- `PatternDetector._detect_double_top`. -/
def detect_double_top (dtp : List ℚ → Bool) (atrS : Series) (bars : List Bar) :
    List Signal :=
  (groupByDay bars).filterMap (doubleTopForDay dtp atrS)

/-- Inner `for s_level in supports[:3]` loop of `_detect_support_bounce` at the
pair (bar `i - 1`, bar `i`): the first level passing both the proximity and the
bounce test emits and breaks; a level passing only the proximity test does not
break. -/
def sbLevelScan (proxPct : ℚ) (atrS : Series) (b0 b1 : Bar) :
    List ℚ → Option Signal
  | [] => none
  | sLevel :: rest =>
    if |b0.low - sLevel| / sLevel * 100 < proxPct then
      if b0.close < b1.close then
        some { ts := b1.ts
               pattern := "support_bounce"
               direction := .long
               confidence := 3/5
               entry_price := b1.close
               stop_price := sLevel - atrAt atrS b1.ts * (3/10)
               target_price := b1.close + atrAt atrS b1.ts }
      else sbLevelScan proxPct atrS b0 b1 rest
    else sbLevelScan proxPct atrS b0 b1 rest

/-- `PatternDetector._detect_support_bounce`.  `supports` stands for the first
component of `indicators.find_support_resistance(...)`, kept as a parameter:
the levels only gate emission and feed the stop price. -/
def detect_support_bounce (proxPct : ℚ) (supports : List ℚ) (atrS : Series)
    (bars : List Bar) : List Signal :=
  if supports.isEmpty then []
  else
    pairScanEmit (fun b0 b1 => sbLevelScan proxPct atrS b0 b1 (supports.take 3))
      (bars.drop 1)

/-- Inner `for r_level in resistances[:3]` loop of
`_detect_resistance_rejection`. -/
def rrLevelScan (proxPct : ℚ) (atrS : Series) (b0 b1 : Bar) :
    List ℚ → Option Signal
  | [] => none
  | rLevel :: rest =>
    if |b0.high - rLevel| / rLevel * 100 < proxPct then
      if b1.close < b0.close then
        some { ts := b1.ts
               pattern := "resistance_rejection"
               direction := .short
               confidence := 3/5
               entry_price := b1.close
               stop_price := rLevel + atrAt atrS b1.ts * (3/10)
               target_price := b1.close - atrAt atrS b1.ts }
      else rrLevelScan proxPct atrS b0 b1 rest
    else rrLevelScan proxPct atrS b0 b1 rest

/-- `PatternDetector._detect_resistance_rejection` (`resistances` stands for
the second component of `indicators.find_support_resistance(...)`). -/
def detect_resistance_rejection (proxPct : ℚ) (resistances : List ℚ)
    (atrS : Series) (bars : List Bar) : List Signal :=
  if resistances.isEmpty then []
  else
    pairScanEmit
      (fun b0 b1 => rrLevelScan proxPct atrS b0 b1 (resistances.take 3))
      (bars.drop 1)

/-- Stable insertion by timestamp (an incoming signal goes before the equal
timestamps already inserted from later list positions), for the final
`signals.sort(key=lambda s: s.timestamp)` of `scan`. -/
def insertByTs (s : Signal) : List Signal → List Signal
  | [] => [s]
  | x :: xs => if Ts.leb s.ts x.ts then s :: x :: xs else x :: insertByTs s xs

/-- Stable sort of signals by timestamp. -/
def sortByTs : List Signal → List Signal
  | [] => []
  | x :: xs => insertByTs x (sortByTs xs)

/-- `PatternDetector.scan` over a detection context of type `γ`: run every
enabled detector, catching any detector failure (`Except.error`) and skipping
that detector, then sort the union by timestamp.  The result type is a plain
signal list: no failure escapes to the caller. -/
def scanDetectors {γ : Type} (enabled : List String)
    (detectors : List (String × (γ → Except String (List Signal)))) (ctx : γ) :
    List Signal :=
  sortByTs
    (detectors.foldl
      (fun acc nd =>
        if nd.1 ∈ enabled then
          match nd.2 ctx with
          | .ok ss => acc ++ ss
          | .error _ => acc
        else acc)
      [])

/-! ### The trade simulator (`backtester.py`) -/

/-- The configuration fields `_simulate_trades` and `run` read. -/
structure SimCfg where
  initial_capital : ℚ
  position_size_pct : ℚ
  commission_per_contract : ℚ
  slippage_pct : ℚ
deriving DecidableEq, Repr

/-- CPython `int(x)` on a float: truncation toward zero. -/
def pytrunc (q : ℚ) : Int :=
  Int.tdiv q.num q.den

/-- `OptionTrade`, restricted to the fields the claims read (entry date for
admission, premiums and contract count for P&L). -/
structure OptionTrade where
  entry_day : Int
  entry_premium : ℚ
  exit_premium : ℚ
  contracts : Int
deriving DecidableEq, Repr

/-- `OptionTrade.pnl_per_contract = (exit_premium - entry_premium) * 100`. -/
def OptionTrade.pnl_per_contract (t : OptionTrade) : ℚ :=
  (t.exit_premium - t.entry_premium) * 100

/-- `OptionTrade.total_pnl = pnl_per_contract * contracts`. -/
def OptionTrade.total_pnl (t : OptionTrade) : ℚ :=
  t.pnl_per_contract * t.contracts

/-- `OptionTrade.pnl_pct`. -/
def OptionTrade.pnl_pct (t : OptionTrade) : ℚ :=
  if t.entry_premium ≤ 0 then 0
  else (t.exit_premium - t.entry_premium) / t.entry_premium * 100

/-- The position-sizing block of `Backtester._simulate_trades` (lines 277-285):
`contracts = max(int(position_value / (premium*100)), 1)`; if the cost exceeds
the capital, shrink to `max(int(capital / (premium*100)), 1)` and reject
(`none`) when that is zero.  (The `max(..., 1)` makes the zero test
unreachable.) -/
def sizePosition (cfg : SimCfg) (capital entryPremium : ℚ) : Option Int :=
  let positionValue := capital * cfg.position_size_pct / 100
  let c1 : Int := max (pytrunc (positionValue / (entryPremium * 100))) 1
  let cost : ℚ := (c1 : ℚ) * entryPremium * 100
  if capital < cost then
    let c2 : Int := max (pytrunc (capital / (entryPremium * 100))) 1
    if c2 = 0 then none else some c2
  else some c1

/-- The signal loop of `Backtester._simulate_trades`: skip a signal on the
active trade date; skip a quote below $0.05; size via `sizePosition`; settle
capital with P&L minus round-trip commission minus slippage; stop processing
once capital is ≤ 0. -/
def simGo (cfg : SimCfg) (quote exitQ : Signal → ℚ) :
    ℚ → Option Int → List Signal → List OptionTrade
  | _, _, [] => []
  | capital, activeDate, s :: rest =>
    let tradeDate := s.ts.day
    if activeDate = some tradeDate then
      simGo cfg quote exitQ capital activeDate rest
    else
      let entryPremium := quote s
      if entryPremium < 1/20 then
        simGo cfg quote exitQ capital activeDate rest
      else
        match sizePosition cfg capital entryPremium with
        | none => simGo cfg quote exitQ capital activeDate rest
        | some contracts =>
          let t : OptionTrade :=
            { entry_day := tradeDate
              entry_premium := entryPremium
              exit_premium := exitQ s
              contracts := contracts }
          let capital2 := capital + t.total_pnl
            - (contracts : ℚ) * cfg.commission_per_contract * 2
            - |t.total_pnl| * cfg.slippage_pct / 100
          t :: (if capital2 ≤ 0 then []
                else simGo cfg quote exitQ capital2 (some tradeDate) rest)

/-- `Backtester._simulate_trades`. -/
def simulate_trades (cfg : SimCfg) (quote exitQ : Signal → ℚ)
    (signals : List Signal) : List OptionTrade :=
  simGo cfg quote exitQ cfg.initial_capital none signals

/-- The `final_capital` computed by `Backtester.run` (line 221):
`initial_capital + sum(t.total_pnl for t in trades)`. -/
def finalCapitalReported (cfg : SimCfg) (trades : List OptionTrade) : ℚ :=
  cfg.initial_capital + (trades.map OptionTrade.total_pnl).sum

/-- One settlement step of the running capital inside `_simulate_trades`:
add the trade P&L, subtract the round-trip commission and the slippage cost. -/
def runningCapitalStep (cfg : SimCfg) (c : ℚ) (t : OptionTrade) : ℚ :=
  c + t.total_pnl - (t.contracts : ℚ) * cfg.commission_per_contract * 2
    - |t.total_pnl| * cfg.slippage_pct / 100

/-- The running capital after settling a list of trades in order. -/
def runningCapitalAfter (cfg : SimCfg) (trades : List OptionTrade) : ℚ :=
  trades.foldl (runningCapitalStep cfg) cfg.initial_capital

/-! ### The result aggregator (`BacktestResult`) -/

/-- `BacktestResult` (the configuration field is dropped; the statistics only
read the trade list and the initial capital). -/
structure BacktestResult where
  trades : List OptionTrade
  initial_capital : ℚ
  final_capital : ℚ
deriving DecidableEq, Repr

/-- `BacktestResult.winners`. -/
def BacktestResult.winners (r : BacktestResult) : List OptionTrade :=
  r.trades.filter (fun t => 0 < t.total_pnl)

/-- `BacktestResult.win_rate`: `0` on no trades, else `winners/total*100`. -/
def BacktestResult.win_rate (r : BacktestResult) : ℚ :=
  if r.trades.length = 0 then 0
  else (r.winners.length : ℚ) / (r.trades.length : ℚ) * 100

/-- `BacktestResult.total_pnl`. -/
def BacktestResult.total_pnl (r : BacktestResult) : ℚ :=
  (r.trades.map OptionTrade.total_pnl).sum

/-- `BacktestResult.max_drawdown`: `0` on no trades, else the minimum of
`(equity - running_peak) / running_peak * 100` over the equity curve
`[initial, initial + pnl_0, ...]` (running peak via `np.maximum.accumulate`). -/
def BacktestResult.max_drawdown (r : BacktestResult) : ℚ :=
  match r.trades with
  | [] => 0
  | _ :: _ =>
    match List.scanl (fun c t => c + OptionTrade.total_pnl t) r.initial_capital r.trades with
    | [] => 0
    | e0 :: erest =>
      let peaks := List.scanl max e0 erest
      match ((e0 :: erest).zip peaks).map (fun p => (p.1 - p.2) / p.2 * 100) with
      | [] => 0
      | d0 :: ds => ds.foldl min d0

/-- `BacktestResult.sharpe_ratio`: `0` for fewer than two trades or zero
standard deviation, else `mean / std * sqrt 252` over per-trade P&L
percentages (`np.std`, population form). -/
noncomputable def BacktestResult.sharpe_ratio (r : BacktestResult) : ℝ :=
  if r.trades.length < 2 then 0
  else
    let returns : List ℝ := r.trades.map (fun t => ((t.pnl_pct : ℚ) : ℝ))
    let n : ℝ := r.trades.length
    let avg := returns.sum / n
    let std := Real.sqrt ((returns.map (fun x => (x - avg) ^ 2)).sum / n)
    if std = 0 then 0 else avg / std * Real.sqrt 252

/-! ### The options pricing model (`options_model.py`)

`scipy.stats.norm.cdf` is the standard normal cumulative distribution, embedded
here as `1/2` plus the integral of the Gaussian density from `0`. -/

/-- Standard normal density. -/
noncomputable def normPdf (x : ℝ) : ℝ :=
  (Real.sqrt (2 * Real.pi))⁻¹ * Real.exp (-x ^ 2 / 2)

/-- Standard normal cumulative distribution (`norm.cdf`). -/
noncomputable def normCdf (x : ℝ) : ℝ :=
  1 / 2 + ∫ t in (0 : ℝ)..x, normPdf t

/-- `OptionType` from `options_model.py`. -/
inductive OptionType where
  | call
  | put
deriving DecidableEq, Repr

/-- The `d1` of `black_scholes_price` (argument order as in the source:
underlying, strike, years to expiry, rate, volatility). -/
noncomputable def bsD1 (S K T r sigma : ℝ) : ℝ :=
  (Real.log (S / K) + (r + sigma ^ 2 / 2) * T) / (sigma * Real.sqrt T)

/-- The `d2 = d1 - sigma * sqrt(T)` of `black_scholes_price`. -/
noncomputable def bsD2 (S K T r sigma : ℝ) : ℝ :=
  bsD1 S K T r sigma - sigma * Real.sqrt T

/-- The pre-floor call price `S*N(d1) - K*exp(-r*T)*N(d2)`. -/
noncomputable def callValue (S K T r sigma : ℝ) : ℝ :=
  S * normCdf (bsD1 S K T r sigma)
    - K * Real.exp (-r * T) * normCdf (bsD2 S K T r sigma)

/-- The pre-floor put price `K*exp(-r*T)*N(-d2) - S*N(-d1)`. -/
noncomputable def putValue (S K T r sigma : ℝ) : ℝ :=
  K * Real.exp (-r * T) * normCdf (-bsD2 S K T r sigma)
    - S * normCdf (-bsD1 S K T r sigma)

/-- `black_scholes_price`: intrinsic value at `T <= 0`, else the Black-Scholes
value floored at $0.01. -/
noncomputable def black_scholes_price (S K T r sigma : ℝ) (ot : OptionType) : ℝ :=
  if T ≤ 0 then
    match ot with
    | .call => max (S - K) 0
    | .put => max (K - S) 0
  else
    max (match ot with
         | .call => callValue S K T r sigma
         | .put => putValue S K T r sigma)
      (1 / 100)

/-! ## Theorems -/

/-- `foldl min` never exceeds its starting value. -/
theorem foldl_min_le {α : Type} [LinearOrder α] :
    ∀ (l : List α) (a : α), l.foldl min a ≤ a := by
  intro l
  induction l with
  | nil => intro a; exact le_rfl
  | cons x xs ih =>
    intro a
    calc xs.foldl min (min a x) ≤ min a x := ih (min a x)
      _ ≤ a := min_le_left a x

/-- C9: on an empty trade list every summary statistic degenerates to zero,
with every division guarded. -/
theorem c9_empty_result_stats (r : BacktestResult) (h : r.trades = []) :
    r.win_rate = 0 ∧ r.total_pnl = 0 ∧ r.max_drawdown = 0 ∧ r.sharpe_ratio = 0 := by
  refine ⟨?_, ?_, ?_, ?_⟩
  · simp [BacktestResult.win_rate, h]
  · simp [BacktestResult.total_pnl, h]
  · simp [BacktestResult.max_drawdown, h]
  · simp [BacktestResult.sharpe_ratio, h]

/-- Witness for C9 at a concrete empty result. -/
theorem c9_empty_result_stats_witness :
    (⟨[], 10000, 10000⟩ : BacktestResult).trades = [] ∧
    ((⟨[], 10000, 10000⟩ : BacktestResult).win_rate = 0 ∧
     (⟨[], 10000, 10000⟩ : BacktestResult).total_pnl = 0 ∧
     (⟨[], 10000, 10000⟩ : BacktestResult).max_drawdown = 0 ∧
     (⟨[], 10000, 10000⟩ : BacktestResult).sharpe_ratio = 0) :=
  ⟨rfl, c9_empty_result_stats ⟨[], 10000, 10000⟩ rfl⟩

/-- C10: the reported maximum drawdown is never positive — the first drawdown
entry of the equity curve is zero and the result is the minimum of all
entries. -/
theorem c10_max_drawdown_nonpos (r : BacktestResult)
    (h : 0 < r.initial_capital) : r.max_drawdown ≤ 0 := by
  unfold BacktestResult.max_drawdown
  cases ht : r.trades with
  | nil => simp
  | cons t ts =>
    simp only [List.scanl_cons, List.singleton_append]
    cases hsc : List.scanl (fun c u => c + OptionTrade.total_pnl u)
        (r.initial_capital + OptionTrade.total_pnl t) ts with
    | nil =>
      simp only [List.scanl_nil, List.zip_cons_cons, List.map_cons, sub_self,
        zero_div, zero_mul, List.zip_nil_left, List.map_nil, List.foldl_nil]
      exact le_rfl
    | cons e1 es =>
      simp only [List.scanl_cons, List.singleton_append, List.zip_cons_cons,
        List.map_cons, sub_self, zero_div, zero_mul]
      exact foldl_min_le _ 0

/-- Witness for C10 at a concrete one-trade losing result. -/
theorem c10_max_drawdown_nonpos_witness :
    (0 : ℚ) < (⟨[⟨0, 2, 1, 1⟩], 100, 100⟩ : BacktestResult).initial_capital ∧
    (⟨[⟨0, 2, 1, 1⟩], 100, 100⟩ : BacktestResult).max_drawdown ≤ 0 :=
  ⟨by norm_num, c10_max_drawdown_nonpos ⟨[⟨0, 2, 1, 1⟩], 100, 100⟩ (by norm_num)⟩

/-- C1 (failing input): with the default costs (commission $0.65/contract,
slippage 1%) a single settled trade makes the `final_capital` that `run`
records (`initial + Σ total_pnl`) differ from the running capital that
`_simulate_trades` maintains, because the latter also subtracts the round-trip
commission and the slippage cost. -/
theorem c1_final_capital_omits_commission_and_slippage :
    (simulate_trades ⟨10000, 5, 13/20, 1⟩ (fun _ => 1) (fun _ => 2)
        [⟨⟨0, 10⟩, "previous_day_high_break", .long, 13/20, 100, 99, 101⟩]
      = [⟨0, 1, 2, 5⟩]) ∧
    finalCapitalReported ⟨10000, 5, 13/20, 1⟩ [⟨0, 1, 2, 5⟩] = 10500 ∧
    runningCapitalAfter ⟨10000, 5, 13/20, 1⟩ [⟨0, 1, 2, 5⟩] = 20977/2 ∧
    finalCapitalReported ⟨10000, 5, 13/20, 1⟩ [⟨0, 1, 2, 5⟩]
      ≠ runningCapitalAfter ⟨10000, 5, 13/20, 1⟩ [⟨0, 1, 2, 5⟩] := by
  refine ⟨?_, ?_, ?_, ?_⟩ <;>
    norm_num [simulate_trades, simGo, sizePosition, pytrunc,
      finalCapitalReported, runningCapitalAfter, runningCapitalStep,
      OptionTrade.total_pnl, OptionTrade.pnl_per_contract] <;>
    decide

/-- C3 (failing input): with $50 of capital and a $1.00 premium the largest
affordable contract count is zero (`int(50/100) = 0`), yet the simulator opens
a one-contract trade costing $100 instead of rejecting the signal — the
`contracts == 0` test sits after `max(..., 1)` and can never fire. -/
theorem c3_unaffordable_signal_not_rejected :
    pytrunc ((50 : ℚ) / (1 * 100)) = 0 ∧
    sizePosition ⟨50, 100, 0, 0⟩ 50 1 = some 1 ∧
    (simulate_trades ⟨50, 100, 0, 0⟩ (fun _ => 1) (fun _ => 2)
        [⟨⟨0, 10⟩, "previous_day_high_break", .long, 13/20, 100, 99, 101⟩]
      = [⟨0, 1, 2, 1⟩]) ∧
    (50 : ℚ) < (1 : ℚ) * 1 * 100 := by
  have htd : Int.tdiv 1 2 = 0 := by decide
  refine ⟨?_, ?_, ?_, ?_⟩ <;>
    norm_num [simulate_trades, simGo, sizePosition, pytrunc, htd,
      OptionTrade.total_pnl, OptionTrade.pnl_per_contract] <;>
    decide

/-- The `max(..., 1)` in `sizePosition` means the result is never `none` and
never zero contracts: every admitted, quotable signal opens at least one
contract regardless of affordability. -/
theorem sizePosition_never_rejects (cfg : SimCfg) (capital entryPremium : ℚ) :
    ∃ n : Int, sizePosition cfg capital entryPremium = some n ∧ 1 ≤ n := by
  unfold sizePosition
  by_cases hc : capital <
      ((max (pytrunc (capital * cfg.position_size_pct / 100 / (entryPremium * 100))) 1 : Int) : ℚ)
        * entryPremium * 100
  · refine ⟨max (pytrunc (capital / (entryPremium * 100))) 1, ?_, le_max_right _ _⟩
    rw [if_pos hc, if_neg]
    omega
  · exact ⟨_, by rw [if_neg hc], le_max_right _ _⟩

/-- Invariant of the simulator loop: on a day-sorted signal stream the entry
days of the produced trades are strictly increasing, and all of them lie
strictly above the active trade date (the loop skips a signal only when its
date equals the single remembered `active_trade_date`). -/
theorem simGo_entry_days_increasing (cfg : SimCfg) (quote exitQ : Signal → ℚ) :
    ∀ (signals : List Signal) (capital : ℚ) (aDay : Option Int),
      signals.Pairwise (fun a b => a.ts.day ≤ b.ts.day) →
      (∀ d, aDay = some d → ∀ s ∈ signals, d ≤ s.ts.day) →
      ((simGo cfg quote exitQ capital aDay signals).map
          OptionTrade.entry_day).Pairwise (· < ·) ∧
      (∀ d, aDay = some d →
        ∀ e ∈ (simGo cfg quote exitQ capital aDay signals).map
            OptionTrade.entry_day, d < e) := by
  intro signals
  induction signals with
  | nil => intro capital aDay _ _; simp [simGo]
  | cons s rest ih =>
    intro capital aDay hsorted hbound
    rw [List.pairwise_cons] at hsorted
    obtain ⟨hhead, htail⟩ := hsorted
    have hboundRest : ∀ d, aDay = some d → ∀ u ∈ rest, d ≤ u.ts.day :=
      fun d hd u hu => hbound d hd u (List.mem_cons_of_mem _ hu)
    by_cases hskip : aDay = some s.ts.day
    · simp only [simGo, if_pos hskip]
      exact ih capital aDay htail hboundRest
    · simp only [simGo, if_neg hskip]
      by_cases hq : quote s < 1/20
      · rw [if_pos hq]
        exact ih capital aDay htail hboundRest
      · rw [if_neg hq]
        cases hsz : sizePosition cfg capital (quote s) with
        | none => exact ih capital aDay htail hboundRest
        | some contracts =>
          dsimp only
          have hdlt : ∀ d, aDay = some d → d < s.ts.day := by
            intro d hd
            refine lt_of_le_of_ne (hbound d hd s (List.mem_cons_self s rest)) ?_
            intro he
            exact hskip (he ▸ hd)
          by_cases hcap :
              capital + OptionTrade.total_pnl ⟨s.ts.day, quote s, exitQ s, contracts⟩
                - (contracts : ℚ) * cfg.commission_per_contract * 2
                - |OptionTrade.total_pnl ⟨s.ts.day, quote s, exitQ s, contracts⟩|
                  * cfg.slippage_pct / 100 ≤ 0
          · rw [if_pos hcap]
            constructor
            · simp
            · intro d hd e he
              simp only [List.map_cons, List.map_nil, List.mem_singleton] at he
              exact he ▸ hdlt d hd
          · rw [if_neg hcap]
            obtain ⟨hpw, hgt⟩ :=
              ih _ (some s.ts.day) htail
                (by
                  intro d hd u hu
                  injection hd with hd
                  exact hd ▸ hhead u hu)
            have hgts := hgt s.ts.day rfl
            constructor
            · rw [List.map_cons, List.pairwise_cons]
              exact ⟨hgts, hpw⟩
            · intro d hd e he
              rw [List.map_cons, List.mem_cons] at he
              rcases he with he | he
              · exact he ▸ hdlt d hd
              · exact lt_trans (hdlt d hd) (hgts e he)

/-- C5 (amended): on a signal stream whose calendar days are non-decreasing —
as produced by `scan`, which sorts its output by timestamp — the simulator
never produces two trades with the same calendar entry date.  (The source
remembers only the most recent trade date, so the claim fails for arbitrary,
unsorted streams; see the counterexample.) -/
theorem c5_amended_unique_dates_for_sorted (cfg : SimCfg)
    (quote exitQ : Signal → ℚ) (signals : List Signal)
    (hsorted : signals.Pairwise (fun a b => a.ts.day ≤ b.ts.day)) :
    ((simulate_trades cfg quote exitQ signals).map
        OptionTrade.entry_day).Pairwise (· ≠ ·) := by
  have h :=
    (simGo_entry_days_increasing cfg quote exitQ signals cfg.initial_capital
      none hsorted (by simp)).1
  exact h.imp ne_of_lt

/-- Witness for C5 (amended) on a concrete sorted three-signal stream. -/
theorem c5_amended_unique_dates_for_sorted_witness :
    (((simulate_trades ⟨10000, 5, 13/20, 1⟩ (fun _ => 1) (fun _ => 2)
        [⟨⟨0, 10⟩, "a", .long, 1, 100, 99, 101⟩,
         ⟨⟨0, 20⟩, "b", .long, 1, 100, 99, 101⟩,
         ⟨⟨1, 10⟩, "c", .long, 1, 100, 99, 101⟩]).map
        OptionTrade.entry_day).Pairwise (· ≠ ·)) :=
  c5_amended_unique_dates_for_sorted _ _ _ _ (by decide)

/-- C5 (counterexample): on an unsorted input stream (day 0, day 1, day 0
again) the simulator opens two trades dated day 0 — admission only compares
against the most recent trade date. -/
theorem c5_counterexample_duplicate_dates_unsorted_stream :
    ((simulate_trades ⟨10000, 5, 0, 0⟩ (fun _ => 1) (fun _ => 1)
        [⟨⟨0, 10⟩, "a", .long, 1, 100, 99, 101⟩,
         ⟨⟨1, 10⟩, "b", .long, 1, 100, 99, 101⟩,
         ⟨⟨0, 20⟩, "c", .long, 1, 100, 99, 101⟩]).map
        OptionTrade.entry_day) = [0, 1, 0] ∧
    ¬ ((simulate_trades ⟨10000, 5, 0, 0⟩ (fun _ => 1) (fun _ => 1)
        [⟨⟨0, 10⟩, "a", .long, 1, 100, 99, 101⟩,
         ⟨⟨1, 10⟩, "b", .long, 1, 100, 99, 101⟩,
         ⟨⟨0, 20⟩, "c", .long, 1, 100, 99, 101⟩]).map
        OptionTrade.entry_day).Pairwise (· ≠ ·) := by
  have h : ((simulate_trades ⟨10000, 5, 0, 0⟩ (fun _ => 1) (fun _ => 1)
      [⟨⟨0, 10⟩, "a", .long, 1, 100, 99, 101⟩,
       ⟨⟨1, 10⟩, "b", .long, 1, 100, 99, 101⟩,
       ⟨⟨0, 20⟩, "c", .long, 1, 100, 99, 101⟩]).map
      OptionTrade.entry_day) = [0, 1, 0] := by
    norm_num [simulate_trades, simGo, sizePosition, pytrunc,
      OptionTrade.total_pnl, OptionTrade.pnl_per_contract]
    decide
  refine ⟨h, ?_⟩
  rw [h]
  decide

/-- A bar found by `firstCrossAbove` belongs to the scanned list. -/
theorem firstCrossAbove_mem (thr : ℚ) :
    ∀ (l : List Bar) (b : Bar), firstCrossAbove thr l = some b → b ∈ l := by
  intro l
  induction l with
  | nil => intro b h; simp [firstCrossAbove] at h
  | cons b0 tail ih =>
    cases tail with
    | nil => intro b h; simp [firstCrossAbove] at h
    | cons b1 rest =>
      intro b h
      rw [firstCrossAbove] at h
      split_ifs at h with hc
      · injection h with h
        exact h ▸ List.mem_cons_of_mem _ (List.mem_cons_self _ _)
      · exact List.mem_cons_of_mem _ (ih b h)

/-- A bar found by `firstCrossBelow` belongs to the scanned list. -/
theorem firstCrossBelow_mem (thr : ℚ) :
    ∀ (l : List Bar) (b : Bar), firstCrossBelow thr l = some b → b ∈ l := by
  intro l
  induction l with
  | nil => intro b h; simp [firstCrossBelow] at h
  | cons b0 tail ih =>
    cases tail with
    | nil => intro b h; simp [firstCrossBelow] at h
    | cons b1 rest =>
      intro b h
      rw [firstCrossBelow] at h
      split_ifs at h with hc
      · injection h with h
        exact h ▸ List.mem_cons_of_mem _ (List.mem_cons_self _ _)
      · exact List.mem_cons_of_mem _ (ih b h)

/-- A bar found by `gapFirstRise` belongs to the scanned list. -/
theorem gapFirstRise_mem (up : Bool) :
    ∀ (l : List Bar) (i : Nat) (p : Nat × Bar),
      gapFirstRise up i l = some p → p.2 ∈ l := by
  intro l
  induction l with
  | nil =>
    intro i p h
    have hnone : gapFirstRise up i [] = none := rfl
    rw [hnone] at h
    simp at h
  | cons b0 tail ih =>
    cases tail with
    | nil =>
      intro i p h
      have hnone : gapFirstRise up i [b0] = none := rfl
      rw [hnone] at h
      simp at h
    | cons b1 rest =>
      intro i p h
      rw [gapFirstRise] at h
      split_ifs at h
      all_goals
        first
        | (injection h with h2
           exact h2 ▸ List.mem_cons_of_mem _ (List.mem_cons_self _ _))
        | exact List.mem_cons_of_mem _ (ih (i + 1) p h)
        | simp at h

/-- The group keys of `groupByDay` are pairwise distinct days. -/
theorem groupByDay_keys_nodup (bars : List Bar) :
    ((groupByDay bars).map Prod.fst).Nodup := by
  unfold groupByDay
  rw [List.map_map]
  have h : (Prod.fst ∘ fun d => (d, bars.filter (fun b => b.ts.day = d)))
      = fun d : Int => d := rfl
  rw [h, List.map_id']
  exact (bars.map (fun b => b.ts.day)).nodup_dedup

/-- Every bar of a `groupByDay` group has the group's day. -/
theorem groupByDay_mem_day (bars : List Bar) (dg : Int × List Bar)
    (h : dg ∈ groupByDay bars) : ∀ b ∈ dg.2, b.ts.day = dg.1 := by
  unfold groupByDay at h
  rw [List.mem_map] at h
  obtain ⟨d, _, hdg⟩ := h
  intro b hb
  rw [← hdg] at hb ⊢
  exact of_decide_eq_true (List.mem_filter.mp hb).2

/-- The day keys of `getOpeningRange` form a sublist of the `groupByDay` keys. -/
theorem getOpeningRange_keys_sublist (orbMinutes : Nat) :
    ∀ l : List (Int × List Bar),
      ((l.filterMap (fun dg => (orOfGroup orbMinutes dg.2).map
          (fun p => (dg.1, p.1, p.2)))).map Prod.fst).Sublist (l.map Prod.fst) := by
  intro l
  induction l with
  | nil => simp
  | cons x tail ih =>
    rw [List.filterMap_cons]
    cases horx : orOfGroup orbMinutes x.2 with
    | none =>
      simp only [Option.map_none']
      rw [List.map_cons]
      exact ih.cons _
    | some p =>
      simp only [Option.map_some']
      rw [List.map_cons, List.map_cons]
      exact ih.cons₂ _

/-- The day keys of `getOpeningRange` are pairwise distinct. -/
theorem getOpeningRange_keys_nodup (orbMinutes : Nat) (bars : List Bar) :
    ((getOpeningRange orbMinutes bars).map Prod.fst).Nodup :=
  (getOpeningRange_keys_sublist orbMinutes (groupByDay bars)).nodup
    (groupByDay_keys_nodup bars)

/-- Generic once-per-day bound: a detector that maps a keyed list with
pairwise-distinct day keys through a per-key body whose signal always carries
the key's day emits at most one signal per day. -/
theorem countP_day_filterMap_le_one {κ : Type} :
    ∀ (l : List (Int × κ)) (F : Int × κ → Option Signal),
      (∀ x ∈ l, ∀ s, F x = some s → s.ts.day = x.1) →
      ((l.map Prod.fst).Nodup) →
      ∀ d : Int,
        ((l.filterMap F).countP (fun s => decide (s.ts.day = d))) ≤ 1 := by
  intro l
  induction l with
  | nil => intro F _ _ d; simp
  | cons x tail ih =>
    intro F hF hnd d
    rw [List.map_cons, List.nodup_cons] at hnd
    obtain ⟨hx, hndt⟩ := hnd
    have hFt : ∀ y ∈ tail, ∀ s, F y = some s → s.ts.day = y.1 :=
      fun y hy => hF y (List.mem_cons_of_mem _ hy)
    rw [List.filterMap_cons]
    cases hFx : F x with
    | none => exact ih F hFt hndt d
    | some s =>
      rw [List.countP_cons]
      have hsd : s.ts.day = x.1 := hF x (List.mem_cons_self _ _) s hFx
      by_cases hxd : x.1 = d
      · have hz : (tail.filterMap F).countP (fun u => decide (u.ts.day = d)) = 0 := by
          rw [List.countP_eq_zero]
          intro t ht
          rw [List.mem_filterMap] at ht
          obtain ⟨y, hy, hFy⟩ := ht
          have htd : t.ts.day = y.1 := hFt y hy t hFy
          have hyd : y.1 ≠ d := by
            intro hcontra
            refine hx ?_
            rw [hxd, ← hcontra]
            exact List.mem_map_of_mem Prod.fst hy
          simp [htd, hyd]
        rw [hz]
        split_ifs <;> norm_num
      · have hfalse : (decide (s.ts.day = d)) = false := by
          simp [hsd, hxd]
        rw [hfalse]
        simpa using ih F hFt hndt d

/-- The ORB-long body only emits signals dated with its range's day. -/
theorem orbLongForRange_day (orbMinutes : Nat) (buffer adxThreshold : ℚ)
    (volS volSmaS adxS atrS : Series) (bars : List Bar) (dr : Int × ℚ × ℚ)
    (s : Signal)
    (h : orbLongForRange orbMinutes buffer adxThreshold volS volSmaS adxS atrS
      bars dr = some s) : s.ts.day = dr.1 := by
  unfold orbLongForRange at h
  dsimp only at h
  cases hmb : bars.filter (fun b => b.ts.day = dr.1) with
  | nil => rw [hmb] at h; simp at h
  | cons b0 brest =>
    rw [hmb] at h
    dsimp only at h
    rw [Option.map_eq_some'] at h
    obtain ⟨b, hb, hbs⟩ := h
    have hmem : b ∈ bars.filter (fun u => u.ts.day = dr.1) := by
      rw [hmb]
      exact List.mem_of_mem_filter (firstCrossAbove_mem _ _ _ hb)
    have hday : b.ts.day = dr.1 :=
      of_decide_eq_true (List.mem_filter.mp hmem).2
    rw [← hbs]
    exact hday

/-- The ORB-short body only emits signals dated with its range's day. -/
theorem orbShortForRange_day (orbMinutes : Nat) (buffer adxThreshold : ℚ)
    (volS volSmaS adxS atrS : Series) (bars : List Bar) (dr : Int × ℚ × ℚ)
    (s : Signal)
    (h : orbShortForRange orbMinutes buffer adxThreshold volS volSmaS adxS atrS
      bars dr = some s) : s.ts.day = dr.1 := by
  unfold orbShortForRange at h
  dsimp only at h
  cases hmb : bars.filter (fun b => b.ts.day = dr.1) with
  | nil => rw [hmb] at h; simp at h
  | cons b0 brest =>
    rw [hmb] at h
    dsimp only at h
    rw [Option.map_eq_some'] at h
    obtain ⟨b, hb, hbs⟩ := h
    have hmem : b ∈ bars.filter (fun u => u.ts.day = dr.1) := by
      rw [hmb]
      exact List.mem_of_mem_filter (firstCrossBelow_mem _ _ _ hb)
    have hday : b.ts.day = dr.1 :=
      of_decide_eq_true (List.mem_filter.mp hmem).2
    rw [← hbs]
    exact hday

/-- The gap-fill-long body only emits signals dated with its group's day. -/
theorem gapFillLongForDay_day (bars : List Bar) (dg : Int × List Bar)
    (hdg : dg ∈ groupByDay bars) (s : Signal)
    (h : gapFillLongForDay dg = some s) : s.ts.day = dg.1 := by
  unfold gapFillLongForDay at h
  dsimp only at h
  split_ifs at h with hlen
  cases hg : dg.2 with
  | nil => rw [hg] at h; simp at h
  | cons b0 grest =>
    rw [hg] at h
    dsimp only at h
    cases hpc : b0.prev_close with
    | none => rw [hpc] at h; simp at h
    | some pc =>
      rw [hpc] at h
      dsimp only at h
      split_ifs at h with hgap
      rw [Option.map_eq_some'] at h
      obtain ⟨ib, hib, hibs⟩ := h
      have hmem : ib.2 ∈ dg.2 := by
        have hdrop : ib.2 ∈ (b0 :: grest).drop 1 :=
          gapFirstRise_mem _ _ _ _ hib
        rw [hg]
        exact List.drop_subset 1 _ hdrop
      have hday : ib.2.ts.day = dg.1 :=
        groupByDay_mem_day bars dg hdg ib.2 hmem
      rw [← hibs]
      exact hday

/-- The gap-fill-short body only emits signals dated with its group's day. -/
theorem gapFillShortForDay_day (bars : List Bar) (dg : Int × List Bar)
    (hdg : dg ∈ groupByDay bars) (s : Signal)
    (h : gapFillShortForDay dg = some s) : s.ts.day = dg.1 := by
  unfold gapFillShortForDay at h
  dsimp only at h
  split_ifs at h with hlen
  cases hg : dg.2 with
  | nil => rw [hg] at h; simp at h
  | cons b0 grest =>
    rw [hg] at h
    dsimp only at h
    cases hpc : b0.prev_close with
    | none => rw [hpc] at h; simp at h
    | some pc =>
      rw [hpc] at h
      dsimp only at h
      split_ifs at h with hgap
      rw [Option.map_eq_some'] at h
      obtain ⟨ib, hib, hibs⟩ := h
      have hmem : ib.2 ∈ dg.2 := by
        have hdrop : ib.2 ∈ (b0 :: grest).drop 1 :=
          gapFirstRise_mem _ _ _ _ hib
        rw [hg]
        exact List.drop_subset 1 _ hdrop
      have hday : ib.2.ts.day = dg.1 :=
        groupByDay_mem_day bars dg hdg ib.2 hmem
      rw [← hibs]
      exact hday

/-- C2 (amended): the opening-range breakout/breakdown and gap-fill detectors
emit at most one signal per trading day — each scans its per-day reference once
and stops at the first qualifying crossing.  The previous-day high/low break
detectors, by contrast, have no per-day break and can emit several signals on
one day (see the counterexample). -/
theorem c2_amended_one_signal_per_day (orbMinutes : Nat)
    (buffer adxThreshold : ℚ) (volS volSmaS adxS atrS : Series)
    (hasCol : Bool) (bars : List Bar) (d : Int) :
    ((detect_orb_long orbMinutes buffer adxThreshold volS volSmaS adxS atrS
        bars).countP (fun s => decide (s.ts.day = d))) ≤ 1 ∧
    ((detect_orb_short orbMinutes buffer adxThreshold volS volSmaS adxS atrS
        bars).countP (fun s => decide (s.ts.day = d))) ≤ 1 ∧
    ((detect_gap_fill_long hasCol atrS bars).countP
        (fun s => decide (s.ts.day = d))) ≤ 1 ∧
    ((detect_gap_fill_short hasCol atrS bars).countP
        (fun s => decide (s.ts.day = d))) ≤ 1 := by
  refine ⟨?_, ?_, ?_, ?_⟩
  · exact countP_day_filterMap_le_one _ _
      (fun x _ s h => orbLongForRange_day _ _ _ _ _ _ _ _ _ _ h)
      (getOpeningRange_keys_nodup orbMinutes bars) d
  · exact countP_day_filterMap_le_one _ _
      (fun x _ s h => orbShortForRange_day _ _ _ _ _ _ _ _ _ _ h)
      (getOpeningRange_keys_nodup orbMinutes bars) d
  · unfold detect_gap_fill_long
    cases hasCol with
    | false => simp
    | true =>
      exact countP_day_filterMap_le_one _ _
        (fun x hx s h => gapFillLongForDay_day bars x hx s h)
        (groupByDay_keys_nodup bars) d
  · unfold detect_gap_fill_short
    cases hasCol with
    | false => simp
    | true =>
      exact countP_day_filterMap_le_one _ _
        (fun x hx s h => gapFillShortForDay_day bars x hx s h)
        (groupByDay_keys_nodup bars) d

/-- C2 (counterexample): the previous-day-high-break detector fires at every
two-bar crossing of the previous day's high — on a day that crosses the level,
falls back, and crosses again it emits two signals, not at most one. -/
theorem c2_counterexample_prev_high_break_twice_one_day :
    ((detect_prev_high_break true (fun _ => none)
        [⟨⟨0, 0⟩, 99, 99, 99, 99, 0, some 100, none, none⟩,
         ⟨⟨0, 5⟩, 101, 101, 101, 101, 0, some 100, none, none⟩,
         ⟨⟨0, 10⟩, 99, 99, 99, 99, 0, some 100, none, none⟩,
         ⟨⟨0, 15⟩, 101, 101, 101, 101, 0, some 100, none, none⟩]).countP
        (fun s => decide (s.ts.day = 0))) = 2 ∧
    ¬ ((detect_prev_high_break true (fun _ => none)
        [⟨⟨0, 0⟩, 99, 99, 99, 99, 0, some 100, none, none⟩,
         ⟨⟨0, 5⟩, 101, 101, 101, 101, 0, some 100, none, none⟩,
         ⟨⟨0, 10⟩, 99, 99, 99, 99, 0, some 100, none, none⟩,
         ⟨⟨0, 15⟩, 101, 101, 101, 101, 0, some 100, none, none⟩]).countP
        (fun s => decide (s.ts.day = 0))) ≤ 1 := by
  have h : (detect_prev_high_break true (fun _ => none)
      [⟨⟨0, 0⟩, 99, 99, 99, 99, 0, some 100, none, none⟩,
       ⟨⟨0, 5⟩, 101, 101, 101, 101, 0, some 100, none, none⟩,
       ⟨⟨0, 10⟩, 99, 99, 99, 99, 0, some 100, none, none⟩,
       ⟨⟨0, 15⟩, 101, 101, 101, 101, 0, some 100, none, none⟩]).map
        (fun s => s.ts.day) = [0, 0] := by
    norm_num [detect_prev_high_break, phbScan, atrAt, sget]
  constructor
  · have h2 : ∀ l : List Signal, l.map (fun s => s.ts.day) = [0, 0] →
        l.countP (fun s => decide (s.ts.day = 0)) = 2 := by
      intro l hl
      cases l with
      | nil => simp at hl
      | cons a l2 =>
        cases l2 with
        | nil => simp at hl
        | cons b l3 =>
          cases l3 with
          | nil =>
            simp only [List.map_cons, List.map_nil, List.cons.injEq] at hl
            simp [List.countP_cons, hl.1, hl.2.1]
          | cons c l4 => simp at hl
    exact h2 _ h
  · intro hle
    have h2 : ∀ l : List Signal, l.map (fun s => s.ts.day) = [0, 0] →
        l.countP (fun s => decide (s.ts.day = 0)) = 2 := by
      intro l hl
      cases l with
      | nil => simp at hl
      | cons a l2 =>
        cases l2 with
        | nil => simp at hl
        | cons b l3 =>
          cases l3 with
          | nil =>
            simp only [List.map_cons, List.map_nil, List.cons.injEq] at hl
            simp [List.countP_cons, hl.1, hl.2.1]
          | cons c l4 => simp at hl
    rw [h2 _ h] at hle
    exact absurd hle (by norm_num)

/-- The volume bonus of `_orb_confidence` is nonnegative. -/
theorem orbVolBonus_nonneg (volS volSmaS : Series) (idx : Ts) :
    0 ≤ orbVolBonus volS volSmaS idx := by
  unfold orbVolBonus
  cases h1 : sget volS idx 0 <;> cases h2 : sget volSmaS idx 1 <;> dsimp only <;>
    positivity

/-- The ADX bonus of `_orb_confidence` is nonnegative. -/
theorem orbAdxBonus_nonneg (adxThreshold : ℚ) (adxS : Series) (idx : Ts) :
    0 ≤ orbAdxBonus adxThreshold adxS idx := by
  unfold orbAdxBonus
  cases h1 : sget adxS idx 0 <;> dsimp only <;> positivity

/-- The tight-range bonus of `_orb_confidence` is nonnegative. -/
theorem orbRangeBonus_nonneg (atrS : Series) (orHigh orLow : ℚ) (idx : Ts) :
    0 ≤ orbRangeBonus atrS orHigh orLow idx := by
  unfold orbRangeBonus
  dsimp only
  split_ifs with h1
  · cases h2 : sget atrS idx (orHigh - orLow) <;> dsimp only <;> positivity
  · exact le_rfl

/-- `_orb_confidence` stays inside `[0, 1]`: base 0.5 plus nonnegative
bonuses, capped at 1. -/
theorem orbConfidence_bounds (adxThreshold : ℚ) (volS volSmaS adxS atrS : Series)
    (orHigh orLow : ℚ) (idx : Ts) :
    0 ≤ orbConfidence adxThreshold volS volSmaS adxS atrS orHigh orLow idx ∧
    orbConfidence adxThreshold volS volSmaS adxS atrS orHigh orLow idx ≤ 1 := by
  have h1 := orbVolBonus_nonneg volS volSmaS idx
  have h2 := orbAdxBonus_nonneg adxThreshold adxS idx
  have h3 := orbRangeBonus_nonneg atrS orHigh orLow idx
  unfold orbConfidence
  exact ⟨le_min (by linarith) zero_le_one, min_le_right _ _⟩

/-- An ORB-long signal's confidence is an `_orb_confidence` value, so in
`[0, 1]`. -/
theorem orbLongForRange_conf_bounds (orbMinutes : Nat)
    (buffer adxThreshold : ℚ) (volS volSmaS adxS atrS : Series)
    (bars : List Bar) (dr : Int × ℚ × ℚ) (s : Signal)
    (h : orbLongForRange orbMinutes buffer adxThreshold volS volSmaS adxS atrS
      bars dr = some s) : 0 ≤ s.confidence ∧ s.confidence ≤ 1 := by
  unfold orbLongForRange at h
  dsimp only at h
  cases hmb : bars.filter (fun b => b.ts.day = dr.1) with
  | nil => rw [hmb] at h; simp at h
  | cons b0 brest =>
    rw [hmb] at h
    dsimp only at h
    rw [Option.map_eq_some'] at h
    obtain ⟨b, _, hbs⟩ := h
    rw [← hbs]
    exact orbConfidence_bounds adxThreshold volS volSmaS adxS atrS dr.2.1 dr.2.2 b.ts

/-- An ORB-short signal's confidence is an `_orb_confidence` value, so in
`[0, 1]`. -/
theorem orbShortForRange_conf_bounds (orbMinutes : Nat)
    (buffer adxThreshold : ℚ) (volS volSmaS adxS atrS : Series)
    (bars : List Bar) (dr : Int × ℚ × ℚ) (s : Signal)
    (h : orbShortForRange orbMinutes buffer adxThreshold volS volSmaS adxS atrS
      bars dr = some s) : 0 ≤ s.confidence ∧ s.confidence ≤ 1 := by
  unfold orbShortForRange at h
  dsimp only at h
  cases hmb : bars.filter (fun b => b.ts.day = dr.1) with
  | nil => rw [hmb] at h; simp at h
  | cons b0 brest =>
    rw [hmb] at h
    dsimp only at h
    rw [Option.map_eq_some'] at h
    obtain ⟨b, _, hbs⟩ := h
    rw [← hbs]
    exact orbConfidence_bounds adxThreshold volS volSmaS adxS atrS dr.2.1 dr.2.2 b.ts

/-- Every previous-day-high-break signal carries the constant confidence
`0.65`. -/
theorem phbScan_confidence (atrS : Series) :
    ∀ (l : List Bar) (s : Signal), s ∈ phbScan atrS l → s.confidence = 13/20 := by
  intro l
  induction l with
  | nil => intro s hs; simp [phbScan] at hs
  | cons b0 tail ih =>
    cases tail with
    | nil => intro s hs; simp [phbScan] at hs
    | cons b1 rest =>
      intro s hs
      rw [phbScan] at hs
      rw [List.mem_append] at hs
      rcases hs with hs | hs
      · cases hph : b1.prev_high with
        | none => rw [hph] at hs; simp at hs
        | some ph =>
          rw [hph] at hs
          dsimp only at hs
          split_ifs at hs with hcross
          · rw [List.mem_singleton] at hs
            rw [hs]
          · simp at hs
      · exact ih s hs

/-- Every previous-day-low-break signal carries the constant confidence
`0.65`. -/
theorem plbScan_confidence (atrS : Series) :
    ∀ (l : List Bar) (s : Signal), s ∈ plbScan atrS l → s.confidence = 13/20 := by
  intro l
  induction l with
  | nil => intro s hs; simp [plbScan] at hs
  | cons b0 tail ih =>
    cases tail with
    | nil => intro s hs; simp [plbScan] at hs
    | cons b1 rest =>
      intro s hs
      rw [plbScan] at hs
      rw [List.mem_append] at hs
      rcases hs with hs | hs
      · cases hpl : b1.prev_low with
        | none => rw [hpl] at hs; simp at hs
        | some pl =>
          rw [hpl] at hs
          dsimp only at hs
          split_ifs at hs with hcross
          · rw [List.mem_singleton] at hs
            rw [hs]
          · simp at hs
      · exact ih s hs

/-- Every gap-fill-long signal carries the constant confidence `0.6`. -/
theorem gapFillLongForDay_confidence (dg : Int × List Bar) (s : Signal)
    (h : gapFillLongForDay dg = some s) : s.confidence = 3/5 := by
  unfold gapFillLongForDay at h
  dsimp only at h
  split_ifs at h with hlen
  cases hg : dg.2 with
  | nil => rw [hg] at h; simp at h
  | cons b0 grest =>
    rw [hg] at h
    dsimp only at h
    cases hpc : b0.prev_close with
    | none => rw [hpc] at h; simp at h
    | some pc =>
      rw [hpc] at h
      dsimp only at h
      split_ifs at h with hgap
      rw [Option.map_eq_some'] at h
      obtain ⟨ib, _, hibs⟩ := h
      rw [← hibs]

/-- Every gap-fill-short signal carries the constant confidence `0.6`. -/
theorem gapFillShortForDay_confidence (dg : Int × List Bar) (s : Signal)
    (h : gapFillShortForDay dg = some s) : s.confidence = 3/5 := by
  unfold gapFillShortForDay at h
  dsimp only at h
  split_ifs at h with hlen
  cases hg : dg.2 with
  | nil => rw [hg] at h; simp at h
  | cons b0 grest =>
    rw [hg] at h
    dsimp only at h
    cases hpc : b0.prev_close with
    | none => rw [hpc] at h; simp at h
    | some pc =>
      rw [hpc] at h
      dsimp only at h
      split_ifs at h with hgap
      rw [Option.map_eq_some'] at h
      obtain ⟨ib, _, hibs⟩ := h
      rw [← hibs]

/-- Every signal of a `pairScanEmit` loop comes from the loop body at some
adjacent pair. -/
theorem pairScanEmit_mem (emit : Bar → Bar → Option Signal) :
    ∀ (l : List Bar) (s : Signal), s ∈ pairScanEmit emit l →
      ∃ b0 b1, emit b0 b1 = some s := by
  intro l
  induction l with
  | nil => intro s hs; simp [pairScanEmit] at hs
  | cons b0 tail ih =>
    cases tail with
    | nil => intro s hs; simp [pairScanEmit] at hs
    | cons b1 rest =>
      intro s hs
      rw [pairScanEmit] at hs
      rw [List.mem_append] at hs
      rcases hs with hs | hs
      · cases he : emit b0 b1 with
        | none => rw [he] at hs; simp at hs
        | some t =>
          rw [he] at hs
          rw [List.mem_singleton] at hs
          exact ⟨b0, b1, hs ▸ he⟩
      · exact ih s hs

/-- VWAP-rejection-long signals have confidence `0.65 ∈ [0, 1]`. -/
theorem vwapRejLongEmit_conf (thresh : ℚ) (vwapS atrS : Series) (b0 b1 : Bar)
    (s : Signal) (h : vwapRejLongEmit thresh vwapS atrS b0 b1 = some s) :
    0 ≤ s.confidence ∧ s.confidence ≤ 1 := by
  unfold vwapRejLongEmit at h
  cases hv : svalAt vwapS b1.ts with
  | nan => rw [hv] at h; simp at h
  | val v =>
    rw [hv] at h
    dsimp only at h
    split_ifs at h with hc
    injection h with h
    rw [← h]
    exact ⟨by norm_num, by norm_num⟩

/-- VWAP-rejection-short signals have confidence `0.65 ∈ [0, 1]`. -/
theorem vwapRejShortEmit_conf (thresh : ℚ) (vwapS atrS : Series) (b0 b1 : Bar)
    (s : Signal) (h : vwapRejShortEmit thresh vwapS atrS b0 b1 = some s) :
    0 ≤ s.confidence ∧ s.confidence ≤ 1 := by
  unfold vwapRejShortEmit at h
  cases hv : svalAt vwapS b1.ts with
  | nan => rw [hv] at h; simp at h
  | val v =>
    rw [hv] at h
    dsimp only at h
    split_ifs at h with hc
    injection h with h
    rw [← h]
    exact ⟨by norm_num, by norm_num⟩

/-- VWAP-crossover-long signals have confidence `0.55 ∈ [0, 1]`. -/
theorem vwapCrossLongEmit_conf (vwapS atrS : Series) (b0 b1 : Bar)
    (s : Signal) (h : vwapCrossLongEmit vwapS atrS b0 b1 = some s) :
    0 ≤ s.confidence ∧ s.confidence ≤ 1 := by
  unfold vwapCrossLongEmit at h
  cases hv : svalAt vwapS b1.ts with
  | nan => rw [hv] at h; simp at h
  | val v =>
    cases hp : svalAt vwapS b0.ts with
    | nan => rw [hv, hp] at h; simp at h
    | val vprev =>
      rw [hv, hp] at h
      dsimp only at h
      split_ifs at h with hc
      injection h with h
      rw [← h]
      exact ⟨by norm_num, by norm_num⟩

/-- VWAP-crossover-short signals have confidence `0.55 ∈ [0, 1]`. -/
theorem vwapCrossShortEmit_conf (vwapS atrS : Series) (b0 b1 : Bar)
    (s : Signal) (h : vwapCrossShortEmit vwapS atrS b0 b1 = some s) :
    0 ≤ s.confidence ∧ s.confidence ≤ 1 := by
  unfold vwapCrossShortEmit at h
  cases hv : svalAt vwapS b1.ts with
  | nan => rw [hv] at h; simp at h
  | val v =>
    cases hp : svalAt vwapS b0.ts with
    | nan => rw [hv, hp] at h; simp at h
    | val vprev =>
      rw [hv, hp] at h
      dsimp only at h
      split_ifs at h with hc
      injection h with h
      rw [← h]
      exact ⟨by norm_num, by norm_num⟩

/-- MACD-bullish-cross signals have confidence `0.55` or `0.65`, in `[0, 1]`. -/
theorem macdBullEmit_conf (adxThreshold : ℚ) (mlS msS adxS atrS : Series)
    (b0 b1 : Bar) (s : Signal)
    (h : macdBullEmit adxThreshold mlS msS adxS atrS b0 b1 = some s) :
    0 ≤ s.confidence ∧ s.confidence ≤ 1 := by
  unfold macdBullEmit at h
  cases hv : svalAt mlS b1.ts with
  | nan => rw [hv] at h; simp at h
  | val mli =>
    cases hp : svalAt msS b1.ts with
    | nan => rw [hv, hp] at h; simp at h
    | val msi =>
      rw [hv, hp] at h
      dsimp only at h
      split_ifs at h with hc hadx
      all_goals (injection h with h; rw [← h]; exact ⟨by norm_num, by norm_num⟩)

/-- MACD-bearish-cross signals have confidence `0.55` or `0.65`, in `[0, 1]`. -/
theorem macdBearEmit_conf (adxThreshold : ℚ) (mlS msS adxS atrS : Series)
    (b0 b1 : Bar) (s : Signal)
    (h : macdBearEmit adxThreshold mlS msS adxS atrS b0 b1 = some s) :
    0 ≤ s.confidence ∧ s.confidence ≤ 1 := by
  unfold macdBearEmit at h
  cases hv : svalAt mlS b1.ts with
  | nan => rw [hv] at h; simp at h
  | val mli =>
    cases hp : svalAt msS b1.ts with
    | nan => rw [hv, hp] at h; simp at h
    | val msi =>
      rw [hv, hp] at h
      dsimp only at h
      split_ifs at h with hc hadx
      all_goals (injection h with h; rw [← h]; exact ⟨by norm_num, by norm_num⟩)

/-- RSI-oversold-bounce signals have confidence `0.6 ∈ [0, 1]`. -/
theorem rsiOversoldEmit_conf (threshold : ℚ) (rsiS atrS : Series) (b0 b1 : Bar)
    (s : Signal) (h : rsiOversoldEmit threshold rsiS atrS b0 b1 = some s) :
    0 ≤ s.confidence ∧ s.confidence ≤ 1 := by
  unfold rsiOversoldEmit at h
  cases hv : svalAt rsiS b1.ts with
  | nan => rw [hv] at h; simp at h
  | val ri =>
    cases hp : svalAt rsiS b0.ts with
    | nan => rw [hv, hp] at h; simp at h
    | val rprev =>
      rw [hv, hp] at h
      dsimp only at h
      split_ifs at h with hc
      injection h with h
      rw [← h]
      exact ⟨by norm_num, by norm_num⟩

/-- RSI-overbought-fade signals have confidence `0.6 ∈ [0, 1]`. -/
theorem rsiOverboughtEmit_conf (threshold : ℚ) (rsiS atrS : Series)
    (b0 b1 : Bar) (s : Signal)
    (h : rsiOverboughtEmit threshold rsiS atrS b0 b1 = some s) :
    0 ≤ s.confidence ∧ s.confidence ≤ 1 := by
  unfold rsiOverboughtEmit at h
  cases hv : svalAt rsiS b1.ts with
  | nan => rw [hv] at h; simp at h
  | val ri =>
    cases hp : svalAt rsiS b0.ts with
    | nan => rw [hv, hp] at h; simp at h
    | val rprev =>
      rw [hv, hp] at h
      dsimp only at h
      split_ifs at h with hc
      injection h with h
      rw [← h]
      exact ⟨by norm_num, by norm_num⟩

/-- EMA-bullish-cross signals have confidence `0.55 ∈ [0, 1]`. -/
theorem emaBullEmit_conf (efS esS atrS : Series) (b0 b1 : Bar) (s : Signal)
    (h : emaBullEmit efS esS atrS b0 b1 = some s) :
    0 ≤ s.confidence ∧ s.confidence ≤ 1 := by
  unfold emaBullEmit at h
  cases hv : svalAt efS b1.ts with
  | nan => rw [hv] at h; simp at h
  | val efi =>
    cases hp : svalAt esS b1.ts with
    | nan => rw [hv, hp] at h; simp at h
    | val esi =>
      rw [hv, hp] at h
      dsimp only at h
      split_ifs at h with hc
      injection h with h
      rw [← h]
      exact ⟨by norm_num, by norm_num⟩

/-- EMA-bearish-cross signals have confidence `0.55 ∈ [0, 1]`. -/
theorem emaBearEmit_conf (efS esS atrS : Series) (b0 b1 : Bar) (s : Signal)
    (h : emaBearEmit efS esS atrS b0 b1 = some s) :
    0 ≤ s.confidence ∧ s.confidence ≤ 1 := by
  unfold emaBearEmit at h
  cases hv : svalAt efS b1.ts with
  | nan => rw [hv] at h; simp at h
  | val efi =>
    cases hp : svalAt esS b1.ts with
    | nan => rw [hv, hp] at h; simp at h
    | val esi =>
      rw [hv, hp] at h
      dsimp only at h
      split_ifs at h with hc
      injection h with h
      rw [← h]
      exact ⟨by norm_num, by norm_num⟩

/-- Both Bollinger-squeeze breakout signals have confidence `0.65 ∈ [0, 1]`. -/
theorem bbSqueezeEmit_conf (bbUpperS bbLowerS atrS : Series) (b : Bar)
    (s : Signal) (h : s ∈ bbSqueezeEmit bbUpperS bbLowerS atrS b) :
    0 ≤ s.confidence ∧ s.confidence ≤ 1 := by
  unfold bbSqueezeEmit at h
  dsimp only at h
  cases hu : svalAt bbUpperS b.ts with
  | val upper =>
    rw [hu] at h
    dsimp only at h
    split_ifs at h with h1
    · rw [List.mem_singleton] at h
      rw [h]
      exact ⟨by norm_num, by norm_num⟩
    · cases hl : svalAt bbLowerS b.ts with
      | val lower =>
        rw [hl] at h
        dsimp only at h
        split_ifs at h with h2
        · rw [List.mem_singleton] at h
          rw [h]
          exact ⟨by norm_num, by norm_num⟩
        · simp at h
      | nan => rw [hl] at h; simp at h
  | nan =>
    rw [hu] at h
    dsimp only at h
    cases hl : svalAt bbLowerS b.ts with
    | val lower =>
      rw [hl] at h
      dsimp only at h
      split_ifs at h with h2
      · rw [List.mem_singleton] at h
        rw [h]
        exact ⟨by norm_num, by norm_num⟩
      · simp at h
    | nan => rw [hl] at h; simp at h

/-- Every signal of the Bollinger-squeeze loop, from any flag state, has
confidence in `[0, 1]`. -/
theorem bbSqueezeScan_conf (squeezeThresh : ℚ)
    (bbBwS bbUpperS bbLowerS atrS : Series) :
    ∀ (l : List Bar) (inSq : Bool) (s : Signal),
      s ∈ bbSqueezeScan squeezeThresh bbBwS bbUpperS bbLowerS atrS inSq l →
      0 ≤ s.confidence ∧ s.confidence ≤ 1 := by
  intro l
  induction l with
  | nil => intro inSq s hs; simp [bbSqueezeScan] at hs
  | cons b rest ih =>
    intro inSq s hs
    rw [bbSqueezeScan] at hs
    cases hbw : svalAt bbBwS b.ts with
    | nan => rw [hbw] at hs; dsimp only at hs; exact ih inSq s hs
    | val bw =>
      rw [hbw] at hs
      dsimp only at hs
      split_ifs at hs with h1 h2
      · exact ih true s hs
      · rw [List.mem_append] at hs
        rcases hs with hs | hs
        · exact bbSqueezeEmit_conf bbUpperS bbLowerS atrS b s hs
        · exact ih false s hs
      · exact ih inSq s hs

/-- Volume-spike-continuation signals have confidence `0.6 ∈ [0, 1]`. -/
theorem volumeSpikeEmit_conf (mult : ℚ) (volSmaS atrS : Series) (b0 b1 : Bar)
    (s : Signal) (h : volumeSpikeEmit mult volSmaS atrS b0 b1 = some s) :
    0 ≤ s.confidence ∧ s.confidence ≤ 1 := by
  unfold volumeSpikeEmit at h
  cases hva : svalAt volSmaS b0.ts with
  | nan => rw [hva] at h; simp at h
  | val va =>
    rw [hva] at h
    dsimp only at h
    split_ifs at h with h0 h1 h2 h3
    · injection h with h
      rw [← h]
      exact ⟨by norm_num, by norm_num⟩
    · injection h with h
      rw [← h]
      exact ⟨by norm_num, by norm_num⟩

/-- Mean-reversion-long signals have confidence `0.6 ∈ [0, 1]`. -/
theorem meanRevLongEmit_conf (thresh : ℚ) (zsS bbMidS atrS : Series)
    (b0 b1 : Bar) (s : Signal)
    (h : meanRevLongEmit thresh zsS bbMidS atrS b0 b1 = some s) :
    0 ≤ s.confidence ∧ s.confidence ≤ 1 := by
  unfold meanRevLongEmit at h
  cases hv : svalAt zsS b1.ts with
  | nan => rw [hv] at h; simp at h
  | val zi =>
    cases hp : svalAt zsS b0.ts with
    | nan => rw [hv, hp] at h; simp at h
    | val zprev =>
      rw [hv, hp] at h
      dsimp only at h
      split_ifs at h with hc
      injection h with h
      rw [← h]
      exact ⟨by norm_num, by norm_num⟩

/-- Mean-reversion-short signals have confidence `0.6 ∈ [0, 1]`. -/
theorem meanRevShortEmit_conf (thresh : ℚ) (zsS bbMidS atrS : Series)
    (b0 b1 : Bar) (s : Signal)
    (h : meanRevShortEmit thresh zsS bbMidS atrS b0 b1 = some s) :
    0 ≤ s.confidence ∧ s.confidence ≤ 1 := by
  unfold meanRevShortEmit at h
  cases hv : svalAt zsS b1.ts with
  | nan => rw [hv] at h; simp at h
  | val zi =>
    cases hp : svalAt zsS b0.ts with
    | nan => rw [hv, hp] at h; simp at h
    | val zprev =>
      rw [hv, hp] at h
      dsimp only at h
      split_ifs at h with hc
      injection h with h
      rw [← h]
      exact ⟨by norm_num, by norm_num⟩

/-- Every midday-reversal signal of the triple scan has confidence
`0.6 ∈ [0, 1]`. -/
theorem mdScan_conf (rsiS atrS : Series) (morningMove : ℚ)
    (midday : List Bar) :
    ∀ (wl : List Bar) (i : Nat) (s : Signal),
      mdScan rsiS atrS morningMove midday i wl = some s →
      0 ≤ s.confidence ∧ s.confidence ≤ 1 := by
  intro wl
  induction wl with
  | nil =>
    intro i s h
    have h0 : mdScan rsiS atrS morningMove midday i [] = none := rfl
    rw [h0] at h
    simp at h
  | cons c0 t ih =>
    cases t with
    | nil =>
      intro i s h
      have h0 : mdScan rsiS atrS morningMove midday i [c0] = none := rfl
      rw [h0] at h
      simp at h
    | cons c1 t2 =>
      cases t2 with
      | nil =>
        intro i s h
        have h0 : mdScan rsiS atrS morningMove midday i [c0, c1] = none := rfl
        rw [h0] at h
        simp at h
      | cons c2 rest =>
        intro i s h
        rw [mdScan] at h
        try dsimp only at h
        split_ifs at h with h1 h2
        · injection h with h
          rw [← h]
          exact ⟨by norm_num, by norm_num⟩
        · injection h with h
          rw [← h]
          exact ⟨by norm_num, by norm_num⟩
        · exact ih (i + 1) s h

/-- Every per-day midday-reversal signal has confidence in `[0, 1]`. -/
theorem middayForDay_conf (rsiS atrS : Series) (dg : Int × List Bar)
    (s : Signal) (h : middayForDay rsiS atrS dg = some s) :
    0 ≤ s.confidence ∧ s.confidence ≤ 1 := by
  unfold middayForDay at h
  dsimp only at h
  split_ifs at h with h1 h2
  cases hm : dg.2.filter (fun b => b.ts.minute < 690) with
  | nil => rw [hm] at h; simp at h
  | cons m0 mrest =>
    rw [hm] at h
    exact mdScan_conf rsiS atrS _ _ _ 2 s h

/-- Every per-day power-hour signal has confidence `0.6 ∈ [0, 1]`. -/
theorem powerHourForDay_conf (adxS atrS : Series) (dg : Int × List Bar)
    (s : Signal) (h : powerHourForDay adxS atrS dg = some s) :
    0 ≤ s.confidence ∧ s.confidence ≤ 1 := by
  unfold powerHourForDay at h
  dsimp only at h
  split_ifs at h with h1 h2
  cases hpp : dg.2.filter (fun b => b.ts.minute < 900) with
  | nil => rw [hpp] at h; simp at h
  | cons p0 pr =>
    rw [hpp] at h
    cases hpw : dg.2.filter (fun b => 900 ≤ b.ts.minute ∧ b.ts.minute ≤ 930) with
    | nil => rw [hpw] at h; simp at h
    | cons q0 t1 =>
      rw [hpw] at h
      cases t1 with
      | nil => simp at h
      | cons q1 t2 =>
        cases t2 with
        | nil => simp at h
        | cons q2 rest2 =>
          dsimp only at h
          split_ifs at h with ha hb hc
          · injection h with h
            rw [← h]
            exact ⟨by norm_num, by norm_num⟩
          · injection h with h
            rw [← h]
            exact ⟨by norm_num, by norm_num⟩

/-- Every per-day double-bottom signal has confidence `0.65 ∈ [0, 1]`. -/
theorem doubleBottomForDay_conf (dbl : List ℚ → Bool) (atrS : Series)
    (dg : Int × List Bar) (s : Signal)
    (h : doubleBottomForDay dbl atrS dg = some s) :
    0 ≤ s.confidence ∧ s.confidence ≤ 1 := by
  unfold doubleBottomForDay at h
  dsimp only at h
  split_ifs at h with h1 hdb
  · cases hg : dg.2 with
    | nil => rw [hg] at h; simp at h
    | cons b0 grest =>
      rw [hg] at h
      try dsimp only at h
      injection h with h
      rw [← h]
      exact ⟨by norm_num, by norm_num⟩
  · cases hg : dg.2 with
    | nil => rw [hg] at h; simp at h
    | cons b0 grest => rw [hg] at h; simp at h

/-- Every per-day double-top signal has confidence `0.65 ∈ [0, 1]`. -/
theorem doubleTopForDay_conf (dtp : List ℚ → Bool) (atrS : Series)
    (dg : Int × List Bar) (s : Signal)
    (h : doubleTopForDay dtp atrS dg = some s) :
    0 ≤ s.confidence ∧ s.confidence ≤ 1 := by
  unfold doubleTopForDay at h
  dsimp only at h
  split_ifs at h with h1 hdb
  · cases hg : dg.2 with
    | nil => rw [hg] at h; simp at h
    | cons b0 grest =>
      rw [hg] at h
      try dsimp only at h
      injection h with h
      rw [← h]
      exact ⟨by norm_num, by norm_num⟩
  · cases hg : dg.2 with
    | nil => rw [hg] at h; simp at h
    | cons b0 grest => rw [hg] at h; simp at h

/-- Every support-bounce signal of the level loop has confidence
`0.6 ∈ [0, 1]`. -/
theorem sbLevelScan_conf (proxPct : ℚ) (atrS : Series) (b0 b1 : Bar) :
    ∀ (ls : List ℚ) (s : Signal),
      sbLevelScan proxPct atrS b0 b1 ls = some s →
      0 ≤ s.confidence ∧ s.confidence ≤ 1 := by
  intro ls
  induction ls with
  | nil => intro s h; simp [sbLevelScan] at h
  | cons sLevel rest ih =>
    intro s h
    rw [sbLevelScan] at h
    split_ifs at h with h1 h2
    · injection h with h
      rw [← h]
      exact ⟨by norm_num, by norm_num⟩
    · exact ih s h
    · exact ih s h

/-- Every resistance-rejection signal of the level loop has confidence
`0.6 ∈ [0, 1]`. -/
theorem rrLevelScan_conf (proxPct : ℚ) (atrS : Series) (b0 b1 : Bar) :
    ∀ (ls : List ℚ) (s : Signal),
      rrLevelScan proxPct atrS b0 b1 ls = some s →
      0 ≤ s.confidence ∧ s.confidence ≤ 1 := by
  intro ls
  induction ls with
  | nil => intro s h; simp [rrLevelScan] at h
  | cons rLevel rest ih =>
    intro s h
    rw [rrLevelScan] at h
    split_ifs at h with h1 h2
    · injection h with h
      rw [← h]
      exact ⟨by norm_num, by norm_num⟩
    · exact ih s h
    · exact ih s h

/-- C7 (amended): `risk_reward` is nonnegative and zero whenever entry equals
stop (the `risk > 0` guard prevents any division by zero), and every signal of
every one of the 26 detectors has confidence in `[0, 1]` (the range-break
detectors in the third conjunct, the remaining twenty in the fourth).
However `risk_reward` is not zero *only* when entry equals stop — a detector
can emit a signal whose target equals its entry (degenerate opening range),
giving ratio 0 with entry ≠ stop; see the counterexample. -/
theorem c7_amended_risk_reward_and_confidence :
    (∀ s : Signal, 0 ≤ s.risk_reward) ∧
    (∀ s : Signal, s.entry_price = s.stop_price → s.risk_reward = 0) ∧
    (∀ (orbMinutes : Nat) (buffer adxThreshold : ℚ)
       (volS volSmaS adxS atrS : Series) (hasCol : Bool) (bars : List Bar)
       (s : Signal),
      (s ∈ detect_orb_long orbMinutes buffer adxThreshold volS volSmaS adxS
          atrS bars → 0 ≤ s.confidence ∧ s.confidence ≤ 1) ∧
      (s ∈ detect_orb_short orbMinutes buffer adxThreshold volS volSmaS adxS
          atrS bars → 0 ≤ s.confidence ∧ s.confidence ≤ 1) ∧
      (s ∈ detect_prev_high_break hasCol atrS bars →
          0 ≤ s.confidence ∧ s.confidence ≤ 1) ∧
      (s ∈ detect_prev_low_break hasCol atrS bars →
          0 ≤ s.confidence ∧ s.confidence ≤ 1) ∧
      (s ∈ detect_gap_fill_long hasCol atrS bars →
          0 ≤ s.confidence ∧ s.confidence ≤ 1) ∧
      (s ∈ detect_gap_fill_short hasCol atrS bars →
          0 ≤ s.confidence ∧ s.confidence ≤ 1)) ∧
    ((∀ (thresh : ℚ) (vwapOpt : Option Series) (atrS : Series)
        (bars : List Bar) (s : Signal),
       s ∈ detect_vwap_rejection_long thresh vwapOpt atrS bars →
         0 ≤ s.confidence ∧ s.confidence ≤ 1) ∧
     (∀ (thresh : ℚ) (vwapOpt : Option Series) (atrS : Series)
        (bars : List Bar) (s : Signal),
       s ∈ detect_vwap_rejection_short thresh vwapOpt atrS bars →
         0 ≤ s.confidence ∧ s.confidence ≤ 1) ∧
     (∀ (vwapOpt : Option Series) (atrS : Series) (bars : List Bar)
        (s : Signal),
       s ∈ detect_vwap_cross_long vwapOpt atrS bars →
         0 ≤ s.confidence ∧ s.confidence ≤ 1) ∧
     (∀ (vwapOpt : Option Series) (atrS : Series) (bars : List Bar)
        (s : Signal),
       s ∈ detect_vwap_cross_short vwapOpt atrS bars →
         0 ≤ s.confidence ∧ s.confidence ≤ 1) ∧
     (∀ (adxThreshold : ℚ) (mlS msS adxS atrS : Series) (bars : List Bar)
        (s : Signal),
       s ∈ detect_macd_bull adxThreshold mlS msS adxS atrS bars →
         0 ≤ s.confidence ∧ s.confidence ≤ 1) ∧
     (∀ (adxThreshold : ℚ) (mlS msS adxS atrS : Series) (bars : List Bar)
        (s : Signal),
       s ∈ detect_macd_bear adxThreshold mlS msS adxS atrS bars →
         0 ≤ s.confidence ∧ s.confidence ≤ 1) ∧
     (∀ (threshold : ℚ) (rsiS atrS : Series) (bars : List Bar) (s : Signal),
       s ∈ detect_rsi_oversold threshold rsiS atrS bars →
         0 ≤ s.confidence ∧ s.confidence ≤ 1) ∧
     (∀ (threshold : ℚ) (rsiS atrS : Series) (bars : List Bar) (s : Signal),
       s ∈ detect_rsi_overbought threshold rsiS atrS bars →
         0 ≤ s.confidence ∧ s.confidence ≤ 1) ∧
     (∀ (efS esS atrS : Series) (bars : List Bar) (s : Signal),
       s ∈ detect_ema_bull_cross efS esS atrS bars →
         0 ≤ s.confidence ∧ s.confidence ≤ 1) ∧
     (∀ (efS esS atrS : Series) (bars : List Bar) (s : Signal),
       s ∈ detect_ema_bear_cross efS esS atrS bars →
         0 ≤ s.confidence ∧ s.confidence ≤ 1) ∧
     (∀ (squeezeThresh : ℚ) (bbBwS bbUpperS bbLowerS atrS : Series)
        (bars : List Bar) (s : Signal),
       s ∈ detect_bb_squeeze squeezeThresh bbBwS bbUpperS bbLowerS atrS bars →
         0 ≤ s.confidence ∧ s.confidence ≤ 1) ∧
     (∀ (mult : ℚ) (volSmaS atrS : Series) (bars : List Bar) (s : Signal),
       s ∈ detect_volume_spike mult volSmaS atrS bars →
         0 ≤ s.confidence ∧ s.confidence ≤ 1) ∧
     (∀ (thresh : ℚ) (zsS bbMidS atrS : Series) (bars : List Bar)
        (s : Signal),
       s ∈ detect_mean_rev_long thresh zsS bbMidS atrS bars →
         0 ≤ s.confidence ∧ s.confidence ≤ 1) ∧
     (∀ (thresh : ℚ) (zsS bbMidS atrS : Series) (bars : List Bar)
        (s : Signal),
       s ∈ detect_mean_rev_short thresh zsS bbMidS atrS bars →
         0 ≤ s.confidence ∧ s.confidence ≤ 1) ∧
     (∀ (rsiS atrS : Series) (bars : List Bar) (s : Signal),
       s ∈ detect_midday_reversal rsiS atrS bars →
         0 ≤ s.confidence ∧ s.confidence ≤ 1) ∧
     (∀ (adxS atrS : Series) (bars : List Bar) (s : Signal),
       s ∈ detect_power_hour adxS atrS bars →
         0 ≤ s.confidence ∧ s.confidence ≤ 1) ∧
     (∀ (dbl : List ℚ → Bool) (atrS : Series) (bars : List Bar) (s : Signal),
       s ∈ detect_double_bottom dbl atrS bars →
         0 ≤ s.confidence ∧ s.confidence ≤ 1) ∧
     (∀ (dtp : List ℚ → Bool) (atrS : Series) (bars : List Bar) (s : Signal),
       s ∈ detect_double_top dtp atrS bars →
         0 ≤ s.confidence ∧ s.confidence ≤ 1) ∧
     (∀ (proxPct : ℚ) (supports : List ℚ) (atrS : Series) (bars : List Bar)
        (s : Signal),
       s ∈ detect_support_bounce proxPct supports atrS bars →
         0 ≤ s.confidence ∧ s.confidence ≤ 1) ∧
     (∀ (proxPct : ℚ) (resistances : List ℚ) (atrS : Series) (bars : List Bar)
        (s : Signal),
       s ∈ detect_resistance_rejection proxPct resistances atrS bars →
         0 ≤ s.confidence ∧ s.confidence ≤ 1)) := by
  refine ⟨?_, ?_, ?_, ?_⟩
  · intro s
    unfold Signal.risk_reward
    dsimp only
    split_ifs with h
    · positivity
    · exact le_rfl
  · intro s h
    unfold Signal.risk_reward
    dsimp only
    rw [h]
    simp
  · intro orbMinutes buffer adxThreshold volS volSmaS adxS atrS hasCol bars s
    refine ⟨?_, ?_, ?_, ?_, ?_, ?_⟩
    · intro hs
      unfold detect_orb_long at hs
      rw [List.mem_filterMap] at hs
      obtain ⟨dr, _, hF⟩ := hs
      exact orbLongForRange_conf_bounds _ _ _ _ _ _ _ _ _ _ hF
    · intro hs
      unfold detect_orb_short at hs
      rw [List.mem_filterMap] at hs
      obtain ⟨dr, _, hF⟩ := hs
      exact orbShortForRange_conf_bounds _ _ _ _ _ _ _ _ _ _ hF
    · intro hs
      unfold detect_prev_high_break at hs
      cases hasCol with
      | false => simp at hs
      | true =>
        have := phbScan_confidence atrS bars s hs
        rw [this]
        norm_num
    · intro hs
      unfold detect_prev_low_break at hs
      cases hasCol with
      | false => simp at hs
      | true =>
        have := plbScan_confidence atrS bars s hs
        rw [this]
        norm_num
    · intro hs
      unfold detect_gap_fill_long at hs
      cases hasCol with
      | false => simp at hs
      | true =>
        rw [if_pos rfl, List.mem_filterMap] at hs
        obtain ⟨dg, _, hF⟩ := hs
        have := gapFillLongForDay_confidence dg s hF
        rw [this]
        norm_num
    · intro hs
      unfold detect_gap_fill_short at hs
      cases hasCol with
      | false => simp at hs
      | true =>
        rw [if_pos rfl, List.mem_filterMap] at hs
        obtain ⟨dg, _, hF⟩ := hs
        have := gapFillShortForDay_confidence dg s hF
        rw [this]
        norm_num
  · refine ⟨?_, ?_, ?_, ?_, ?_, ?_, ?_, ?_, ?_, ?_, ?_, ?_, ?_, ?_, ?_, ?_,
      ?_, ?_, ?_, ?_⟩
    · intro thresh vwapOpt atrS bars s hs
      cases vwapOpt with
      | none => simp [detect_vwap_rejection_long] at hs
      | some vwapS =>
        unfold detect_vwap_rejection_long at hs
        try dsimp only at hs
        obtain ⟨b0, b1, he⟩ := pairScanEmit_mem _ _ s hs
        exact vwapRejLongEmit_conf thresh vwapS atrS b0 b1 s he
    · intro thresh vwapOpt atrS bars s hs
      cases vwapOpt with
      | none => simp [detect_vwap_rejection_short] at hs
      | some vwapS =>
        unfold detect_vwap_rejection_short at hs
        try dsimp only at hs
        obtain ⟨b0, b1, he⟩ := pairScanEmit_mem _ _ s hs
        exact vwapRejShortEmit_conf thresh vwapS atrS b0 b1 s he
    · intro vwapOpt atrS bars s hs
      cases vwapOpt with
      | none => simp [detect_vwap_cross_long] at hs
      | some vwapS =>
        unfold detect_vwap_cross_long at hs
        try dsimp only at hs
        obtain ⟨b0, b1, he⟩ := pairScanEmit_mem _ _ s hs
        exact vwapCrossLongEmit_conf vwapS atrS b0 b1 s he
    · intro vwapOpt atrS bars s hs
      cases vwapOpt with
      | none => simp [detect_vwap_cross_short] at hs
      | some vwapS =>
        unfold detect_vwap_cross_short at hs
        try dsimp only at hs
        obtain ⟨b0, b1, he⟩ := pairScanEmit_mem _ _ s hs
        exact vwapCrossShortEmit_conf vwapS atrS b0 b1 s he
    · intro adxThreshold mlS msS adxS atrS bars s hs
      unfold detect_macd_bull at hs
      obtain ⟨b0, b1, he⟩ := pairScanEmit_mem _ _ s hs
      exact macdBullEmit_conf adxThreshold mlS msS adxS atrS b0 b1 s he
    · intro adxThreshold mlS msS adxS atrS bars s hs
      unfold detect_macd_bear at hs
      obtain ⟨b0, b1, he⟩ := pairScanEmit_mem _ _ s hs
      exact macdBearEmit_conf adxThreshold mlS msS adxS atrS b0 b1 s he
    · intro threshold rsiS atrS bars s hs
      unfold detect_rsi_oversold at hs
      obtain ⟨b0, b1, he⟩ := pairScanEmit_mem _ _ s hs
      exact rsiOversoldEmit_conf threshold rsiS atrS b0 b1 s he
    · intro threshold rsiS atrS bars s hs
      unfold detect_rsi_overbought at hs
      obtain ⟨b0, b1, he⟩ := pairScanEmit_mem _ _ s hs
      exact rsiOverboughtEmit_conf threshold rsiS atrS b0 b1 s he
    · intro efS esS atrS bars s hs
      unfold detect_ema_bull_cross at hs
      obtain ⟨b0, b1, he⟩ := pairScanEmit_mem _ _ s hs
      exact emaBullEmit_conf efS esS atrS b0 b1 s he
    · intro efS esS atrS bars s hs
      unfold detect_ema_bear_cross at hs
      obtain ⟨b0, b1, he⟩ := pairScanEmit_mem _ _ s hs
      exact emaBearEmit_conf efS esS atrS b0 b1 s he
    · intro squeezeThresh bbBwS bbUpperS bbLowerS atrS bars s hs
      unfold detect_bb_squeeze at hs
      exact bbSqueezeScan_conf squeezeThresh bbBwS bbUpperS bbLowerS atrS _
        false s hs
    · intro mult volSmaS atrS bars s hs
      unfold detect_volume_spike at hs
      obtain ⟨b0, b1, he⟩ := pairScanEmit_mem _ _ s hs
      exact volumeSpikeEmit_conf mult volSmaS atrS b0 b1 s he
    · intro thresh zsS bbMidS atrS bars s hs
      unfold detect_mean_rev_long at hs
      obtain ⟨b0, b1, he⟩ := pairScanEmit_mem _ _ s hs
      exact meanRevLongEmit_conf thresh zsS bbMidS atrS b0 b1 s he
    · intro thresh zsS bbMidS atrS bars s hs
      unfold detect_mean_rev_short at hs
      obtain ⟨b0, b1, he⟩ := pairScanEmit_mem _ _ s hs
      exact meanRevShortEmit_conf thresh zsS bbMidS atrS b0 b1 s he
    · intro rsiS atrS bars s hs
      unfold detect_midday_reversal at hs
      rw [List.mem_filterMap] at hs
      obtain ⟨dg, _, hF⟩ := hs
      exact middayForDay_conf rsiS atrS dg s hF
    · intro adxS atrS bars s hs
      unfold detect_power_hour at hs
      rw [List.mem_filterMap] at hs
      obtain ⟨dg, _, hF⟩ := hs
      exact powerHourForDay_conf adxS atrS dg s hF
    · intro dbl atrS bars s hs
      unfold detect_double_bottom at hs
      rw [List.mem_filterMap] at hs
      obtain ⟨dg, _, hF⟩ := hs
      exact doubleBottomForDay_conf dbl atrS dg s hF
    · intro dtp atrS bars s hs
      unfold detect_double_top at hs
      rw [List.mem_filterMap] at hs
      obtain ⟨dg, _, hF⟩ := hs
      exact doubleTopForDay_conf dtp atrS dg s hF
    · intro proxPct supports atrS bars s hs
      unfold detect_support_bounce at hs
      split_ifs at hs with hsup
      · simp at hs
      · obtain ⟨b0, b1, he⟩ := pairScanEmit_mem _ _ s hs
        exact sbLevelScan_conf proxPct atrS b0 b1 _ s he
    · intro proxPct resistances atrS bars s hs
      unfold detect_resistance_rejection at hs
      split_ifs at hs with hres
      · simp at hs
      · obtain ⟨b0, b1, he⟩ := pairScanEmit_mem _ _ s hs
        exact rrLevelScan_conf proxPct atrS b0 b1 _ s he

/-- C7 (counterexample): on a day whose opening range is a single flat bar
(`or_high = or_low`), the ORB-long detector emits a signal whose target equals
its entry, so `risk_reward = 0` although entry (101) differs from stop (100) —
refuting "risk:reward equals 0 exactly when entry equals stop". -/
theorem c7_counterexample_zero_rr_with_entry_ne_stop :
    (detect_orb_long 15 (1/10) 25 (fun _ => none) (fun _ => none)
        (fun _ => none) (fun _ => none)
        [⟨⟨0, 0⟩, 100, 100, 100, 100, 0, none, none, none⟩,
         ⟨⟨0, 20⟩, 100, 100, 100, 100, 0, none, none, none⟩,
         ⟨⟨0, 25⟩, 101, 101, 101, 101, 0, none, none, none⟩]
      = [⟨⟨0, 25⟩, "opening_range_breakout", .long, 1/2, 101, 100, 101⟩]) ∧
    Signal.risk_reward
      ⟨⟨0, 25⟩, "opening_range_breakout", .long, 1/2, 101, 100, 101⟩ = 0 ∧
    (⟨⟨0, 25⟩, "opening_range_breakout", .long, 1/2, 101, 100, 101⟩ :
      Signal).entry_price ≠
    (⟨⟨0, 25⟩, "opening_range_breakout", .long, 1/2, 101, 100, 101⟩ :
      Signal).stop_price := by
  refine ⟨?_, ?_, ?_⟩
  · norm_num [detect_orb_long, orbLongForRange, getOpeningRange, groupByDay,
      orOfGroup, maxHigh, minLow, firstCrossAbove, orbConfidence, orbVolBonus,
      orbAdxBonus, orbRangeBonus, sget, atrAt, Ts.le, Ts.lt, List.dedup,
      List.filterMap_cons, List.filter_cons, List.dedup_cons_of_mem,
      List.dedup_cons_of_not_mem]
  · norm_num [Signal.risk_reward]
  · norm_num

/-- Witness for C7 (amended) at concrete inputs: a generic signal, a signal
with entry = stop, the concrete ORB-long signal of the flat-range day, and a
concrete RSI-oversold-bounce signal. -/
theorem c7_amended_risk_reward_and_confidence_witness :
    0 ≤ (⟨⟨0, 0⟩, "a", .long, 1, 5, 3, 9⟩ : Signal).risk_reward ∧
    (⟨⟨0, 0⟩, "a", .long, 1, 5, 5, 9⟩ : Signal).risk_reward = 0 ∧
    (0 ≤ (⟨⟨0, 25⟩, "opening_range_breakout", .long, 1/2, 101, 100, 101⟩ :
        Signal).confidence ∧
      (⟨⟨0, 25⟩, "opening_range_breakout", .long, 1/2, 101, 100, 101⟩ :
        Signal).confidence ≤ 1) ∧
    (0 ≤ (⟨⟨0, 5⟩, "rsi_oversold_bounce", .long, 3/5, 100, 987/10, 101⟩ :
        Signal).confidence ∧
      (⟨⟨0, 5⟩, "rsi_oversold_bounce", .long, 3/5, 100, 987/10, 101⟩ :
        Signal).confidence ≤ 1) := by
  refine ⟨c7_amended_risk_reward_and_confidence.1 _,
    c7_amended_risk_reward_and_confidence.2.1 _ rfl, ?_, ?_⟩
  have hmem : (⟨⟨0, 25⟩, "opening_range_breakout", .long, 1/2, 101, 100, 101⟩ :
      Signal) ∈ detect_orb_long 15 (1/10) 25 (fun _ => none) (fun _ => none)
        (fun _ => none) (fun _ => none)
        [⟨⟨0, 0⟩, 100, 100, 100, 100, 0, none, none, none⟩,
         ⟨⟨0, 20⟩, 100, 100, 100, 100, 0, none, none, none⟩,
         ⟨⟨0, 25⟩, 101, 101, 101, 101, 0, none, none, none⟩] := by
    have hev : detect_orb_long 15 (1/10) 25 (fun _ => none) (fun _ => none)
        (fun _ => none) (fun _ => none)
        [⟨⟨0, 0⟩, 100, 100, 100, 100, 0, none, none, none⟩,
         ⟨⟨0, 20⟩, 100, 100, 100, 100, 0, none, none, none⟩,
         ⟨⟨0, 25⟩, 101, 101, 101, 101, 0, none, none, none⟩]
        = [⟨⟨0, 25⟩, "opening_range_breakout", .long, 1/2, 101, 100, 101⟩] := by
      norm_num [detect_orb_long, orbLongForRange, getOpeningRange, groupByDay,
        orOfGroup, maxHigh, minLow, firstCrossAbove, orbConfidence, orbVolBonus,
        orbAdxBonus, orbRangeBonus, sget, atrAt, Ts.le, Ts.lt, List.dedup,
        List.filterMap_cons, List.filter_cons, List.dedup_cons_of_mem,
        List.dedup_cons_of_not_mem]
    rw [hev]
    exact List.mem_singleton.mpr rfl
  · exact
      ((c7_amended_risk_reward_and_confidence.2.2.1 15 (1/10) 25
          (fun _ => none) (fun _ => none) (fun _ => none) (fun _ => none) true
          _ _).1) hmem
  · have hmem2 : (⟨⟨0, 5⟩, "rsi_oversold_bounce", .long, 3/5, 100, 987/10,
        101⟩ : Signal) ∈ detect_rsi_oversold 30
          (fun t => if t.minute = 0 then some (.val 25) else some (.val 35))
          (fun _ => none)
          [⟨⟨0, 0⟩, 100, 100, 100, 100, 0, none, none, none⟩,
           ⟨⟨0, 5⟩, 100, 101, 99, 100, 0, none, none, none⟩] := by
      have hev2 : detect_rsi_oversold 30
          (fun t => if t.minute = 0 then some (.val 25) else some (.val 35))
          (fun _ => none)
          [⟨⟨0, 0⟩, 100, 100, 100, 100, 0, none, none, none⟩,
           ⟨⟨0, 5⟩, 100, 101, 99, 100, 0, none, none, none⟩]
          = [⟨⟨0, 5⟩, "rsi_oversold_bounce", .long, 3/5, 100, 987/10, 101⟩] := by
        norm_num [detect_rsi_oversold, pairScanEmit, rsiOversoldEmit, svalAt,
          atrAt, sget]
      rw [hev2]
      exact List.mem_singleton.mpr rfl
    exact (c7_amended_risk_reward_and_confidence.2.2.2.2.2.2.2.2.2.1 30
      (fun t => if t.minute = 0 then some (.val 25) else some (.val 35))
      (fun _ => none) _ _) hmem2

/-- C8: a detector that fails (raises) contributes nothing and is simply
skipped: the scan of a detector list containing a failing detector equals the
scan without it, and — by the result type of `scanDetectors` — the caller
always receives a plain (possibly empty) signal list, never the failure. -/
theorem c8_scan_isolates_failing_detector {γ : Type} (enabled : List String)
    (ds₁ ds₂ : List (String × (γ → Except String (List Signal))))
    (nm : String) (d : γ → Except String (List Signal)) (ctx : γ)
    (err : String) (hfail : d ctx = .error err) :
    scanDetectors enabled (ds₁ ++ (nm, d) :: ds₂) ctx
      = scanDetectors enabled (ds₁ ++ ds₂) ctx := by
  unfold scanDetectors
  congr 1
  rw [List.foldl_append, List.foldl_append, List.foldl_cons]
  congr 1
  dsimp only
  rw [hfail]
  split_ifs <;> rfl

/-- Witness for C8: one enabled healthy detector plus one enabled failing
detector — the failing one is dropped, the healthy one's signal survives. -/
theorem c8_scan_isolates_failing_detector_witness :
    scanDetectors (γ := Unit) ["good", "bad"]
        [("good", fun _ => .ok [⟨⟨0, 0⟩, "p", .long, 1, 2, 1, 3⟩]),
         ("bad", fun _ => .error "boom")] ()
      = scanDetectors (γ := Unit) ["good", "bad"]
        [("good", fun _ => .ok [⟨⟨0, 0⟩, "p", .long, 1, 2, 1, 3⟩])] () :=
  c8_scan_isolates_failing_detector ["good", "bad"]
    [("good", fun _ => .ok [⟨⟨0, 0⟩, "p", .long, 1, 2, 1, 3⟩])] [] "bad"
    (fun _ => .error "boom") () "boom" rfl

/-- C6: at `T ≤ 0` the pricer returns the intrinsic value exactly, and at
`T > 0` the returned price is floored at $0.01. -/
theorem c6_intrinsic_at_expiry_and_floor (S K T r sigma : ℝ) :
    (T ≤ 0 → black_scholes_price S K T r sigma .call = max (S - K) 0 ∧
             black_scholes_price S K T r sigma .put = max (K - S) 0) ∧
    (0 < T → 1/100 ≤ black_scholes_price S K T r sigma .call ∧
             1/100 ≤ black_scholes_price S K T r sigma .put) := by
  constructor
  · intro h
    constructor <;> simp [black_scholes_price, h]
  · intro h
    have hn : ¬ T ≤ 0 := not_le.mpr h
    constructor <;> simp [black_scholes_price, hn]

/-- Witness for C6 at the spec's example (S = 450, K = 445: call 5.00, put
0.00 at expiry) and a positive-time floor instance. -/
theorem c6_intrinsic_at_expiry_and_floor_witness :
    black_scholes_price 450 445 0 (5/100) (3/10) .call = 5 ∧
    black_scholes_price 450 445 0 (5/100) (3/10) .put = 0 ∧
    1/100 ≤ black_scholes_price 450 445 (1/400) (5/100) (3/10) .call := by
  obtain ⟨h1, h2⟩ := (c6_intrinsic_at_expiry_and_floor 450 445 0 (5/100) (3/10)).1 le_rfl
  have h3 := ((c6_intrinsic_at_expiry_and_floor 450 445 (1/400) (5/100) (3/10)).2
    (by norm_num)).1
  refine ⟨?_, ?_, h3⟩
  · rw [h1]; norm_num
  · rw [h2]; norm_num

/-! ### The standard normal CDF toolkit for C4 -/

/-- The Gaussian density is nonnegative. -/
theorem normPdf_nonneg (x : ℝ) : 0 ≤ normPdf x := by
  unfold normPdf
  positivity

/-- The Gaussian density is even. -/
theorem normPdf_even (x : ℝ) : normPdf (-x) = normPdf x := by
  unfold normPdf
  rw [neg_sq]

/-- The Gaussian density is continuous. -/
theorem continuous_normPdf : Continuous normPdf := by
  unfold normPdf
  exact continuous_const.mul (((continuous_pow 2).neg.div_const 2).exp)

/-- Rewriting the density's exponent into `exp (-(1/2) * x^2)` form. -/
theorem normPdf_eq (x : ℝ) :
    normPdf x = (Real.sqrt (2 * Real.pi))⁻¹ * Real.exp (-(1/2) * x ^ 2) := by
  unfold normPdf
  congr 1
  congr 1
  ring

/-- The Gaussian density is integrable on the line. -/
theorem integrable_normPdf : MeasureTheory.Integrable normPdf := by
  have h := (integrable_exp_neg_mul_sq (by norm_num : (0:ℝ) < 1/2)).const_mul
    (Real.sqrt (2 * Real.pi))⁻¹
  have he : normPdf = fun x => (Real.sqrt (2 * Real.pi))⁻¹ *
      Real.exp (-(1/2) * x ^ 2) := funext normPdf_eq
  rw [he]
  exact h

/-- The square root of `2π` is positive. -/
theorem sqrt_two_pi_pos : 0 < Real.sqrt (2 * Real.pi) :=
  Real.sqrt_pos.mpr (by positivity)

/-- Half of the total Gaussian mass sits on the positive half-line. -/
theorem integral_normPdf_Ioi : ∫ x in Set.Ioi (0:ℝ), normPdf x = 1/2 := by
  have hg : ∫ x in Set.Ioi (0:ℝ), Real.exp (-(1/2) * x ^ 2)
      = Real.sqrt (Real.pi / (1/2)) / 2 := integral_gaussian_Ioi (1/2)
  have harg : Real.sqrt (Real.pi / (1/2)) = Real.sqrt (2 * Real.pi) := by
    congr 1
    ring
  have hcalc : ∫ x in Set.Ioi (0:ℝ), normPdf x
      = (Real.sqrt (2 * Real.pi))⁻¹ * ∫ x in Set.Ioi (0:ℝ),
          Real.exp (-(1/2) * x ^ 2) := by
    rw [← MeasureTheory.integral_mul_left]
    refine MeasureTheory.setIntegral_congr_fun measurableSet_Ioi ?_
    intro x _
    exact normPdf_eq x
  rw [hcalc, hg, harg]
  field_simp

/-- The Gaussian density integrates to one. -/
theorem integral_normPdf : ∫ x, normPdf x = 1 := by
  have hg : ∫ x : ℝ, Real.exp (-(1/2) * x ^ 2) = Real.sqrt (Real.pi / (1/2)) :=
    integral_gaussian (1/2)
  have harg : Real.sqrt (Real.pi / (1/2)) = Real.sqrt (2 * Real.pi) := by
    congr 1
    ring
  have hcalc : ∫ x, normPdf x = (Real.sqrt (2 * Real.pi))⁻¹ *
      ∫ x : ℝ, Real.exp (-(1/2) * x ^ 2) := by
    rw [← MeasureTheory.integral_mul_left]
    congr 1
    funext x
    exact normPdf_eq x
  rw [hcalc, hg, harg]
  field_simp

/-- Half of the Gaussian mass sits on the nonpositive half-line. -/
theorem integral_normPdf_Iic : ∫ x in Set.Iic (0:ℝ), normPdf x = 1/2 := by
  have h := MeasureTheory.integral_add_compl (s := Set.Iic (0:ℝ))
    measurableSet_Iic integrable_normPdf (f := normPdf)
  rw [Set.compl_Iic, integral_normPdf] at h
  have h2 := integral_normPdf_Ioi
  linarith

/-- The CDF is monotone (its increments are integrals of a nonnegative
density). -/
theorem normCdf_mono : Monotone normCdf := by
  intro a b hab
  unfold normCdf
  have hadd : (∫ t in (0:ℝ)..a, normPdf t) + ∫ t in a..b, normPdf t
      = ∫ t in (0:ℝ)..b, normPdf t :=
    intervalIntegral.integral_add_adjacent_intervals
      (continuous_normPdf.intervalIntegrable _ _)
      (continuous_normPdf.intervalIntegrable _ _)
  have hnn : 0 ≤ ∫ t in a..b, normPdf t :=
    intervalIntegral.integral_nonneg hab (fun u _ => normPdf_nonneg u)
  linarith

/-- `normCdf 0 = 1/2`. -/
theorem normCdf_zero : normCdf 0 = 1/2 := by
  unfold normCdf
  simp

/-- The CDF never exceeds one. -/
theorem normCdf_le_one (x : ℝ) : normCdf x ≤ 1 := by
  rcases le_or_lt x 0 with h | h
  · have hm := normCdf_mono h
    rw [normCdf_zero] at hm
    linarith
  · unfold normCdf
    rw [intervalIntegral.integral_of_le h.le]
    have h2 : ∫ t in Set.Ioc (0:ℝ) x, normPdf t
        ≤ ∫ t in Set.Ioi (0:ℝ), normPdf t := by
      refine MeasureTheory.setIntegral_mono_set integrable_normPdf.integrableOn
        (MeasureTheory.ae_of_all _ normPdf_nonneg) ?_
      exact Set.Ioc_subset_Ioi_self.eventuallyLE
    have h3 := integral_normPdf_Ioi
    linarith

/-- The CDF is nonnegative. -/
theorem normCdf_nonneg (x : ℝ) : 0 ≤ normCdf x := by
  rcases le_or_lt 0 x with h | h
  · have hm := normCdf_mono h
    rw [normCdf_zero] at hm
    linarith
  · unfold normCdf
    rw [intervalIntegral.integral_symm]
    rw [intervalIntegral.integral_of_le h.le]
    have h2 : ∫ t in Set.Ioc x (0:ℝ), normPdf t
        ≤ ∫ t in Set.Iic (0:ℝ), normPdf t := by
      refine MeasureTheory.setIntegral_mono_set integrable_normPdf.integrableOn
        (MeasureTheory.ae_of_all _ normPdf_nonneg) ?_
      exact Set.Ioc_subset_Iic_self.eventuallyLE
    have h3 := integral_normPdf_Iic
    linarith

/-- CDF symmetry: `normCdf (-x) = 1 - normCdf x`. -/
theorem normCdf_neg (x : ℝ) : normCdf (-x) = 1 - normCdf x := by
  unfold normCdf
  have h := intervalIntegral.integral_comp_neg (a := x) (b := 0) (f := normPdf)
  simp only [normPdf_even, neg_zero] at h
  have hsym : (∫ t in x..(0:ℝ), normPdf t) = -∫ t in (0:ℝ)..x, normPdf t :=
    intervalIntegral.integral_symm 0 x
  rw [hsym] at h
  rw [← h]
  ring

/-- The CDF differentiates to the density (FTC for a continuous integrand). -/
theorem normCdf_hasDerivAt (x : ℝ) : HasDerivAt normCdf (normPdf x) x := by
  have h := (continuous_normPdf.integral_hasStrictDerivAt 0 x).hasDerivAt
  have h2 := h.const_add (1/2 : ℝ)
  exact h2

/-- The CDF is continuous. -/
theorem continuous_normCdf : Continuous normCdf :=
  continuous_iff_continuousAt.mpr fun x => (normCdf_hasDerivAt x).continuousAt

/-- The CDF tends to one at `+∞`. -/
theorem tendsto_normCdf_atTop : Filter.Tendsto normCdf Filter.atTop (nhds 1) := by
  have h := MeasureTheory.intervalIntegral_tendsto_integral_Ioi 0
    integrable_normPdf.integrableOn Filter.tendsto_id
  rw [integral_normPdf_Ioi] at h
  have h2 := h.const_add (1/2 : ℝ)
  norm_num at h2
  exact h2

/-- The CDF tends to zero at `-∞`. -/
theorem tendsto_normCdf_atBot : Filter.Tendsto normCdf Filter.atBot (nhds 0) := by
  have hrw : normCdf = fun x => 1 - normCdf (-x) := by
    funext x
    rw [normCdf_neg]
    ring
  rw [hrw]
  have hcomp : Filter.Tendsto (fun x : ℝ => normCdf (-x)) Filter.atBot (nhds 1) :=
    tendsto_normCdf_atTop.comp Filter.tendsto_neg_atBot_atTop
  have := Filter.Tendsto.sub (tendsto_const_nhds (x := (1:ℝ))) hcomp
  norm_num at this
  exact this

/-- The classical density identity `S φ(d1) = K e^{-rT} φ(d2)` behind the
Black-Scholes theta/vega computations. -/
theorem bs_pdf_identity (S K T r sigma : ℝ) (hS : 0 < S) (hK : 0 < K)
    (hsig : sigma ≠ 0) (hT : 0 < T) :
    S * normPdf (bsD1 S K T r sigma)
      = K * Real.exp (-r * T) * normPdf (bsD2 S K T r sigma) := by
  have hst : Real.sqrt T ≠ 0 := (Real.sqrt_pos.mpr hT).ne'
  have hTT : Real.sqrt T * Real.sqrt T = T := Real.mul_self_sqrt hT.le
  have hd1 : bsD1 S K T r sigma * (sigma * Real.sqrt T)
      = Real.log (S / K) + (r + sigma ^ 2 / 2) * T := by
    unfold bsD1
    exact div_mul_cancel₀ _ (mul_ne_zero hsig hst)
  have hlog : Real.log (S / K) = Real.log S - Real.log K :=
    Real.log_div hS.ne' hK.ne'
  have hkey : ∀ a : ℝ, a * (sigma * Real.sqrt T)
        = Real.log (S / K) + (r + sigma ^ 2 / 2) * T →
      S * Real.exp (-a ^ 2 / 2)
        = K * Real.exp (-r * T) * Real.exp (-(a - sigma * Real.sqrt T) ^ 2 / 2) := by
    intro a ha
    rw [show S = Real.exp (Real.log S) from (Real.exp_log hS).symm,
        show K = Real.exp (Real.log K) from (Real.exp_log hK).symm]
    rw [← Real.exp_add, ← Real.exp_add, ← Real.exp_add]
    rw [Real.exp_eq_exp]
    have hexpand : Real.log K + -r * T + -(a - sigma * Real.sqrt T) ^ 2 / 2
        = Real.log K - r * T - a ^ 2 / 2 + a * (sigma * Real.sqrt T)
          - sigma ^ 2 * (Real.sqrt T * Real.sqrt T) / 2 := by
      ring
    rw [hexpand, hTT, ha, hlog]
    ring
  have hk := hkey (bsD1 S K T r sigma) hd1
  unfold normPdf bsD2
  calc S * ((Real.sqrt (2 * Real.pi))⁻¹
        * Real.exp (-(bsD1 S K T r sigma) ^ 2 / 2))
      = (Real.sqrt (2 * Real.pi))⁻¹
        * (S * Real.exp (-(bsD1 S K T r sigma) ^ 2 / 2)) := by ring
    _ = (Real.sqrt (2 * Real.pi))⁻¹ * (K * Real.exp (-r * T)
        * Real.exp (-(bsD1 S K T r sigma - sigma * Real.sqrt T) ^ 2 / 2)) := by
        rw [hk]
    _ = K * Real.exp (-r * T) * ((Real.sqrt (2 * Real.pi))⁻¹
        * Real.exp (-(bsD1 S K T r sigma - sigma * Real.sqrt T) ^ 2 / 2)) := by
        ring

/-- At every `T > 0` the pre-floor call value has a nonnegative derivative in
`T`, namely `S φ(d1) σ/(2√T) + r K e^{-rT} Φ(d2)`. -/
theorem callValue_hasDerivAt_nonneg (S K r sigma T : ℝ) (hS : 0 < S)
    (hK : 0 < K) (hr : 0 ≤ r) (hsig : 0 < sigma) (hT : 0 < T) :
    ∃ D, 0 ≤ D ∧ HasDerivAt (fun u => callValue S K u r sigma) D T := by
  set s := Real.sqrt T with hsdef
  have hs : 0 < s := Real.sqrt_pos.mpr hT
  have hsqrt : HasDerivAt Real.sqrt (1 / (2 * s)) T := Real.hasDerivAt_sqrt hT.ne'
  have hnum : HasDerivAt
      (fun u : ℝ => Real.log (S / K) + (r + sigma ^ 2 / 2) * u)
      (r + sigma ^ 2 / 2) T := by
    simpa using ((hasDerivAt_id T).const_mul (r + sigma ^ 2 / 2)).const_add
      (Real.log (S / K))
  have hden : HasDerivAt (fun u : ℝ => sigma * Real.sqrt u)
      (sigma * (1 / (2 * s))) T := hsqrt.const_mul sigma
  have hdenne : sigma * s ≠ 0 := (mul_pos hsig hs).ne'
  have hd1 : HasDerivAt (fun u => bsD1 S K u r sigma)
      (((r + sigma ^ 2 / 2) * (sigma * s)
        - (Real.log (S / K) + (r + sigma ^ 2 / 2) * T) * (sigma * (1 / (2 * s))))
        / (sigma * s) ^ 2) T := by
    have h := hnum.div hden hdenne
    exact h
  set D1 := ((r + sigma ^ 2 / 2) * (sigma * s)
    - (Real.log (S / K) + (r + sigma ^ 2 / 2) * T) * (sigma * (1 / (2 * s))))
    / (sigma * s) ^ 2 with hD1def
  have hd2 : HasDerivAt (fun u => bsD2 S K u r sigma)
      (D1 - sigma * (1 / (2 * s))) T := by
    have h := hd1.sub hden
    exact h
  have hPhi1 : HasDerivAt (fun u => normCdf (bsD1 S K u r sigma))
      (normPdf (bsD1 S K T r sigma) * D1) T := by
    have h := (normCdf_hasDerivAt (bsD1 S K T r sigma)).comp T hd1
    exact h
  have hPhi2 : HasDerivAt (fun u => normCdf (bsD2 S K u r sigma))
      (normPdf (bsD2 S K T r sigma) * (D1 - sigma * (1 / (2 * s)))) T := by
    have h := (normCdf_hasDerivAt (bsD2 S K T r sigma)).comp T hd2
    exact h
  have hexp : HasDerivAt (fun u : ℝ => Real.exp (-r * u))
      (Real.exp (-r * T) * -r) T := by
    have h : HasDerivAt (fun u : ℝ => -r * u) (-r) T := by
      simpa using (hasDerivAt_id T).const_mul (-r)
    exact h.exp
  have hcall : HasDerivAt (fun u => callValue S K u r sigma)
      (S * (normPdf (bsD1 S K T r sigma) * D1)
        - ((K * (Real.exp (-r * T) * -r)) * normCdf (bsD2 S K T r sigma)
            + (K * Real.exp (-r * T))
              * (normPdf (bsD2 S K T r sigma) * (D1 - sigma * (1 / (2 * s))))))
      T := by
    have h := (hPhi1.const_mul S).sub ((hexp.const_mul K).mul hPhi2)
    exact h
  refine ⟨_, ?_, hcall⟩
  have hid := bs_pdf_identity S K T r sigma hS hK hsig.ne' hT
  have hsub : K * Real.exp (-r * T) * normPdf (bsD2 S K T r sigma)
      = S * normPdf (bsD1 S K T r sigma) := hid.symm
  have hrearrange : S * (normPdf (bsD1 S K T r sigma) * D1)
      - ((K * (Real.exp (-r * T) * -r)) * normCdf (bsD2 S K T r sigma)
          + (K * Real.exp (-r * T))
            * (normPdf (bsD2 S K T r sigma) * (D1 - sigma * (1 / (2 * s)))))
      = S * normPdf (bsD1 S K T r sigma) * (sigma * (1 / (2 * s)))
        + r * K * Real.exp (-r * T) * normCdf (bsD2 S K T r sigma) := by
    linear_combination (sigma * (1 / (2 * s)) - D1) * hsub
  rw [hrearrange]
  have h1 : 0 ≤ S * normPdf (bsD1 S K T r sigma) * (sigma * (1 / (2 * s))) := by
    have := normPdf_nonneg (bsD1 S K T r sigma)
    positivity
  have h2 : 0 ≤ r * K * Real.exp (-r * T) * normCdf (bsD2 S K T r sigma) := by
    have := normCdf_nonneg (bsD2 S K T r sigma)
    positivity
  linarith

/-- The pre-floor call value is monotone in `T` on `(0, ∞)`. -/
theorem callValue_monotoneOn (S K r sigma : ℝ) (hS : 0 < S) (hK : 0 < K)
    (hr : 0 ≤ r) (hsig : 0 < sigma) :
    MonotoneOn (fun u => callValue S K u r sigma) (Set.Ioi 0) := by
  refine monotoneOn_of_deriv_nonneg (convex_Ioi 0) ?_ ?_ ?_
  · intro x hx
    obtain ⟨D, _, hD⟩ := callValue_hasDerivAt_nonneg S K r sigma x hS hK hr hsig hx
    exact hD.continuousAt.continuousWithinAt
  · rw [interior_Ioi]
    intro x hx
    obtain ⟨D, _, hD⟩ := callValue_hasDerivAt_nonneg S K r sigma x hS hK hr hsig hx
    exact hD.differentiableAt.differentiableWithinAt
  · rw [interior_Ioi]
    intro x hx
    obtain ⟨D, hD0, hD⟩ := callValue_hasDerivAt_nonneg S K r sigma x hS hK hr hsig hx
    rw [hD.deriv]
    exact hD0

/-- `σ√T` tends to `0` from the right as `T → 0⁺`. -/
theorem tendsto_sigma_sqrt_nhdsGT (sigma : ℝ) (hsig : 0 < sigma) :
    Filter.Tendsto (fun T : ℝ => sigma * Real.sqrt T)
      (nhdsWithin 0 (Set.Ioi 0)) (nhdsWithin 0 (Set.Ioi 0)) := by
  rw [tendsto_nhdsWithin_iff]
  constructor
  · have h : Filter.Tendsto (fun T : ℝ => sigma * Real.sqrt T) (nhds 0)
        (nhds (sigma * Real.sqrt 0)) :=
      ((continuous_const.mul Real.continuous_sqrt).tendsto 0)
    simp only [Real.sqrt_zero, mul_zero] at h
    exact h.mono_left nhdsWithin_le_nhds
  · refine eventually_mem_nhdsWithin.mono ?_
    intro T hT
    exact Set.mem_Ioi.mpr (mul_pos hsig (Real.sqrt_pos.mpr hT))

/-- Along `T → 0⁺`, `d1` is eventually `(log(S/K) + bT) * (σ√T)⁻¹`. -/
theorem bsD1_eventuallyEq (S K r sigma : ℝ) :
    (fun T => bsD1 S K T r sigma) =ᶠ[nhdsWithin 0 (Set.Ioi 0)]
      fun T => (Real.log (S / K) + (r + sigma ^ 2 / 2) * T)
        * (sigma * Real.sqrt T)⁻¹ := by
  refine eventually_mem_nhdsWithin.mono ?_
  intro T _
  dsimp only
  unfold bsD1
  rw [div_eq_mul_inv]

/-- Along `T → 0⁺`, `d2` is eventually `(log(S/K) + (r - σ²/2)T) * (σ√T)⁻¹`. -/
theorem bsD2_eventuallyEq (S K r sigma : ℝ) (hsig : 0 < sigma) :
    (fun T => bsD2 S K T r sigma) =ᶠ[nhdsWithin 0 (Set.Ioi 0)]
      fun T => (Real.log (S / K) + (r - sigma ^ 2 / 2) * T)
        * (sigma * Real.sqrt T)⁻¹ := by
  refine eventually_mem_nhdsWithin.mono ?_
  intro T hT
  have hT0 : (0:ℝ) < T := hT
  have hs : Real.sqrt T ≠ 0 := (Real.sqrt_pos.mpr hT0).ne'
  have hTT : Real.sqrt T * Real.sqrt T = T := Real.mul_self_sqrt hT0.le
  unfold bsD2 bsD1
  field_simp
  ring_nf
  nlinarith [hTT]

/-- The affine numerator tends to `log (S/K)` as `T → 0⁺`. -/
theorem tendsto_num_nhdsGT (c b : ℝ) :
    Filter.Tendsto (fun T : ℝ => c + b * T) (nhdsWithin 0 (Set.Ioi 0))
      (nhds c) := by
  have h : Filter.Tendsto (fun T : ℝ => c + b * T) (nhds 0) (nhds (c + b * 0)) :=
    (continuous_const.add (continuous_const.mul continuous_id)).tendsto 0
  simp only [mul_zero, add_zero] at h
  exact h.mono_left nhdsWithin_le_nhds

/-- For an in-the-money call (`K < S`), the pre-floor value tends to `S - K`
as `T → 0⁺`. -/
theorem callValue_tendsto_itm (S K r sigma : ℝ) (hS : 0 < S) (hK : 0 < K)
    (hsig : 0 < sigma) (hKS : K < S) :
    Filter.Tendsto (fun T => callValue S K T r sigma)
      (nhdsWithin 0 (Set.Ioi 0)) (nhds (S - K)) := by
  have hL : 0 < Real.log (S / K) :=
    Real.log_pos ((one_lt_div hK).mpr hKS)
  have hinv : Filter.Tendsto (fun T : ℝ => (sigma * Real.sqrt T)⁻¹)
      (nhdsWithin 0 (Set.Ioi 0)) Filter.atTop :=
    tendsto_inv_zero_atTop.comp (tendsto_sigma_sqrt_nhdsGT sigma hsig)
  have hd1 : Filter.Tendsto (fun T => bsD1 S K T r sigma)
      (nhdsWithin 0 (Set.Ioi 0)) Filter.atTop := by
    refine Filter.Tendsto.congr' (bsD1_eventuallyEq S K r sigma).symm ?_
    exact Filter.Tendsto.mul_atTop hL
      (tendsto_num_nhdsGT (Real.log (S / K)) (r + sigma ^ 2 / 2)) hinv
  have hd2 : Filter.Tendsto (fun T => bsD2 S K T r sigma)
      (nhdsWithin 0 (Set.Ioi 0)) Filter.atTop := by
    refine Filter.Tendsto.congr' (bsD2_eventuallyEq S K r sigma hsig).symm ?_
    exact Filter.Tendsto.mul_atTop hL
      (tendsto_num_nhdsGT (Real.log (S / K)) (r - sigma ^ 2 / 2)) hinv
  have hPhi1 : Filter.Tendsto (fun T => normCdf (bsD1 S K T r sigma))
      (nhdsWithin 0 (Set.Ioi 0)) (nhds 1) := tendsto_normCdf_atTop.comp hd1
  have hPhi2 : Filter.Tendsto (fun T => normCdf (bsD2 S K T r sigma))
      (nhdsWithin 0 (Set.Ioi 0)) (nhds 1) := tendsto_normCdf_atTop.comp hd2
  have hexp : Filter.Tendsto (fun T : ℝ => Real.exp (-r * T))
      (nhdsWithin 0 (Set.Ioi 0)) (nhds 1) := by
    have h : Filter.Tendsto (fun T : ℝ => Real.exp (-r * T)) (nhds 0)
        (nhds (Real.exp (-r * 0))) :=
      ((Real.continuous_exp.comp (continuous_const.mul continuous_id)).tendsto 0)
    simp only [mul_zero, Real.exp_zero] at h
    exact h.mono_left nhdsWithin_le_nhds
  have hfull := ((hPhi1.const_mul S).sub
    (((hexp.const_mul K)).mul hPhi2))
  simp only [mul_one] at hfull
  unfold callValue
  exact hfull

/-- For an out-of-the-money call (`S < K`), the pre-floor value tends to `0`
as `T → 0⁺`. -/
theorem callValue_tendsto_otm (S K r sigma : ℝ) (hS : 0 < S) (hK : 0 < K)
    (hsig : 0 < sigma) (hSK : S < K) :
    Filter.Tendsto (fun T => callValue S K T r sigma)
      (nhdsWithin 0 (Set.Ioi 0)) (nhds 0) := by
  have hL : Real.log (S / K) < 0 :=
    Real.log_neg (div_pos hS hK) ((div_lt_one hK).mpr hSK)
  have hinv : Filter.Tendsto (fun T : ℝ => (sigma * Real.sqrt T)⁻¹)
      (nhdsWithin 0 (Set.Ioi 0)) Filter.atTop :=
    tendsto_inv_zero_atTop.comp (tendsto_sigma_sqrt_nhdsGT sigma hsig)
  have hd1 : Filter.Tendsto (fun T => bsD1 S K T r sigma)
      (nhdsWithin 0 (Set.Ioi 0)) Filter.atBot := by
    refine Filter.Tendsto.congr' (bsD1_eventuallyEq S K r sigma).symm ?_
    exact Filter.Tendsto.neg_mul_atTop hL
      (tendsto_num_nhdsGT (Real.log (S / K)) (r + sigma ^ 2 / 2)) hinv
  have hd2 : Filter.Tendsto (fun T => bsD2 S K T r sigma)
      (nhdsWithin 0 (Set.Ioi 0)) Filter.atBot := by
    refine Filter.Tendsto.congr' (bsD2_eventuallyEq S K r sigma hsig).symm ?_
    exact Filter.Tendsto.neg_mul_atTop hL
      (tendsto_num_nhdsGT (Real.log (S / K)) (r - sigma ^ 2 / 2)) hinv
  have hPhi1 : Filter.Tendsto (fun T => normCdf (bsD1 S K T r sigma))
      (nhdsWithin 0 (Set.Ioi 0)) (nhds 0) := tendsto_normCdf_atBot.comp hd1
  have hPhi2 : Filter.Tendsto (fun T => normCdf (bsD2 S K T r sigma))
      (nhdsWithin 0 (Set.Ioi 0)) (nhds 0) := tendsto_normCdf_atBot.comp hd2
  have hexp : Filter.Tendsto (fun T : ℝ => Real.exp (-r * T))
      (nhdsWithin 0 (Set.Ioi 0)) (nhds 1) := by
    have h : Filter.Tendsto (fun T : ℝ => Real.exp (-r * T)) (nhds 0)
        (nhds (Real.exp (-r * 0))) :=
      ((Real.continuous_exp.comp (continuous_const.mul continuous_id)).tendsto 0)
    simp only [mul_zero, Real.exp_zero] at h
    exact h.mono_left nhdsWithin_le_nhds
  have hfull := ((hPhi1.const_mul S).sub (((hexp.const_mul K)).mul hPhi2))
  simp only [mul_zero, sub_zero] at hfull
  unfold callValue
  exact hfull

/-- For `K < S` and `T > 0` the pre-floor call value dominates `S - K`. -/
theorem callValue_ge_sub (S K r sigma T : ℝ) (hS : 0 < S) (hK : 0 < K)
    (hr : 0 ≤ r) (hsig : 0 < sigma) (hT : 0 < T) (hKS : K < S) :
    S - K ≤ callValue S K T r sigma := by
  have hmono := callValue_monotoneOn S K r sigma hS hK hr hsig
  have hlim := callValue_tendsto_itm S K r sigma hS hK hsig hKS
  refine le_of_tendsto hlim ?_
  filter_upwards [Ioc_mem_nhdsWithin_Ioi (Set.left_mem_Ico.mpr hT)] with t ht
  exact hmono (Set.mem_Ioi.mpr ht.1) (Set.mem_Ioi.mpr hT) ht.2

/-- For `S < K` and `T > 0` the pre-floor call value is nonnegative. -/
theorem callValue_nonneg_otm (S K r sigma T : ℝ) (hS : 0 < S) (hK : 0 < K)
    (hr : 0 ≤ r) (hsig : 0 < sigma) (hT : 0 < T) (hSK : S < K) :
    0 ≤ callValue S K T r sigma := by
  have hmono := callValue_monotoneOn S K r sigma hS hK hr hsig
  have hlim := callValue_tendsto_otm S K r sigma hS hK hsig hSK
  refine le_of_tendsto hlim ?_
  filter_upwards [Ioc_mem_nhdsWithin_Ioi (Set.left_mem_Ico.mpr hT)] with t ht
  exact hmono (Set.mem_Ioi.mpr ht.1) (Set.mem_Ioi.mpr hT) ht.2

/-- Put-call parity of the pre-floor values at `r = 0`:
`putValue = callValue + K - S`. -/
theorem putValue_parity_r0 (S K T sigma : ℝ) :
    putValue S K T 0 sigma = callValue S K T 0 sigma + K - S := by
  unfold putValue callValue
  rw [normCdf_neg, normCdf_neg]
  simp only [neg_zero, zero_mul, Real.exp_zero, one_mul]
  ring

/-- C4 (amended): for fixed `S, K > 0`, `σ > 0` and `r ≥ 0` the price returned
by the pricer is non-decreasing in `T` (over all of `T ≥ 0`, including the
intrinsic branch at `T ≤ 0` and the $0.01 floor) for calls; for puts the same
holds when `r = 0`.  For puts with `r > 0` monotonicity can fail — the
discounted strike decays with `T` — as the counterexample shows. -/
theorem c4_amended_price_monotone_in_T (S K r sigma T₁ T₂ : ℝ)
    (hS : 0 < S) (hK : 0 < K) (hr : 0 ≤ r) (hsig : 0 < sigma) (hT : T₁ ≤ T₂) :
    black_scholes_price S K T₁ r sigma .call
      ≤ black_scholes_price S K T₂ r sigma .call ∧
    (r = 0 → black_scholes_price S K T₁ r sigma .put
      ≤ black_scholes_price S K T₂ r sigma .put) := by
  constructor
  · rcases le_or_lt T₂ 0 with h2 | h2
    · have h1 : T₁ ≤ 0 := le_trans hT h2
      unfold black_scholes_price
      rw [if_pos h1, if_pos h2]
    · rcases le_or_lt T₁ 0 with h1 | h1
      · unfold black_scholes_price
        rw [if_pos h1, if_neg (not_le.mpr h2)]
        dsimp only
        rcases le_or_lt S K with hSK | hKS
        · have hmx : max (S - K) 0 = 0 := max_eq_right (by linarith)
          rw [hmx]
          calc (0:ℝ) ≤ 1/100 := by norm_num
            _ ≤ max (callValue S K T₂ r sigma) (1/100) := le_max_right _ _
        · have hged := callValue_ge_sub S K r sigma T₂ hS hK hr hsig h2 hKS
          calc max (S - K) 0 = S - K := max_eq_left (by linarith)
            _ ≤ callValue S K T₂ r sigma := hged
            _ ≤ max (callValue S K T₂ r sigma) (1/100) := le_max_left _ _
      · unfold black_scholes_price
        rw [if_neg (not_le.mpr h1), if_neg (not_le.mpr h2)]
        dsimp only
        exact max_le_max
          (callValue_monotoneOn S K r sigma hS hK hr hsig
            (Set.mem_Ioi.mpr h1) (Set.mem_Ioi.mpr h2) hT) le_rfl
  · intro hr0
    subst hr0
    rcases le_or_lt T₂ 0 with h2 | h2
    · have h1 : T₁ ≤ 0 := le_trans hT h2
      unfold black_scholes_price
      rw [if_pos h1, if_pos h2]
    · rcases le_or_lt T₁ 0 with h1 | h1
      · unfold black_scholes_price
        rw [if_pos h1, if_neg (not_le.mpr h2)]
        dsimp only
        rcases le_or_lt K S with hKS | hSK
        · have hmx : max (K - S) 0 = 0 := max_eq_right (by linarith)
          rw [hmx]
          calc (0:ℝ) ≤ 1/100 := by norm_num
            _ ≤ max (putValue S K T₂ 0 sigma) (1/100) := le_max_right _ _
        · have h0 := callValue_nonneg_otm S K 0 sigma T₂ hS hK le_rfl hsig h2 hSK
          have hmx : max (K - S) 0 = K - S := max_eq_left (by linarith)
          rw [hmx]
          calc K - S ≤ callValue S K T₂ 0 sigma + K - S := by linarith
            _ = putValue S K T₂ 0 sigma := (putValue_parity_r0 S K T₂ sigma).symm
            _ ≤ max (putValue S K T₂ 0 sigma) (1/100) := le_max_left _ _
      · unfold black_scholes_price
        rw [if_neg (not_le.mpr h1), if_neg (not_le.mpr h2)]
        dsimp only
        have hcv := callValue_monotoneOn S K 0 sigma hS hK le_rfl hsig
          (Set.mem_Ioi.mpr h1) (Set.mem_Ioi.mpr h2) hT
        rw [putValue_parity_r0, putValue_parity_r0]
        exact max_le_max (by dsimp only at hcv; linarith) le_rfl

/-- C4 (counterexample): with a positive rate the put price is *not*
non-decreasing in `T`: for S = 1, K = 100, r = 1, σ = 1 the deep-in-the-money
put is worth 99 at expiry but at most `100·e⁻¹ ≤ 50` one year out. -/
theorem c4_counterexample_put_price_decreasing :
    black_scholes_price 1 100 1 1 1 .put < black_scholes_price 1 100 0 1 1 .put := by
  have h0 : black_scholes_price 1 100 0 1 1 .put = 99 := by
    unfold black_scholes_price
    rw [if_pos le_rfl]
    norm_num
  have h1 : black_scholes_price 1 100 1 1 1 .put ≤ 50 := by
    unfold black_scholes_price
    rw [if_neg (by norm_num)]
    dsimp only
    refine max_le ?_ (by norm_num)
    unfold putValue
    have hPhi2 : normCdf (-bsD2 1 100 1 1 1) ≤ 1 := normCdf_le_one _
    have hPhi2n : 0 ≤ normCdf (-bsD2 1 100 1 1 1) := normCdf_nonneg _
    have hPhi1 : 0 ≤ normCdf (-bsD1 1 100 1 1 1) := normCdf_nonneg _
    have hexp : Real.exp (-1 * 1) ≤ 1/2 := by
      have h2 : (2:ℝ) ≤ Real.exp 1 := by
        have := Real.add_one_le_exp (1:ℝ)
        linarith
      rw [show (-1:ℝ) * 1 = -1 by norm_num, Real.exp_neg]
      have hinv : (Real.exp 1)⁻¹ ≤ (2:ℝ)⁻¹ :=
        inv_le_inv_of_le (by norm_num) h2
      calc (Real.exp 1)⁻¹ ≤ (2:ℝ)⁻¹ := hinv
        _ = 1/2 := by norm_num
    have hprod : Real.exp ((-1:ℝ) * 1) * normCdf (-bsD2 1 100 1 1 1)
        ≤ (1/2) * 1 := mul_le_mul hexp hPhi2 hPhi2n (by norm_num)
    have hb : 100 * Real.exp ((-1:ℝ) * 1) * normCdf (-bsD2 1 100 1 1 1) ≤ 50 := by
      calc 100 * Real.exp ((-1:ℝ) * 1) * normCdf (-bsD2 1 100 1 1 1)
          = 100 * (Real.exp ((-1:ℝ) * 1) * normCdf (-bsD2 1 100 1 1 1)) := by
            ring
        _ ≤ 100 * (1/2 * 1) :=
            mul_le_mul_of_nonneg_left hprod (by norm_num)
        _ = 50 := by norm_num
    linarith
  linarith

/-- Witness for C4 (amended) at concrete inputs `S = 2`, `K = 1`, `r = 0`,
`σ = 1`, `T₁ = 1 ≤ T₂ = 2`. -/
theorem c4_amended_price_monotone_in_T_witness :
    black_scholes_price 2 1 1 0 1 .call ≤ black_scholes_price 2 1 2 0 1 .call ∧
    black_scholes_price 2 1 1 0 1 .put ≤ black_scholes_price 2 1 2 0 1 .put := by
  obtain ⟨hc, hp⟩ := c4_amended_price_monotone_in_T 2 1 0 1 1 2 (by norm_num)
    (by norm_num) le_rfl (by norm_num) (by norm_num)
  exact ⟨hc, hp rfl⟩

end SpyAgent
